import Mathlib

/-!
# Verification of the inventory-management core (`stok.py`)

A shallow embedding of the dynamic-attribute / inventory core of the
repository (`src/stok.py`) together with proofs about its operations.

Python primitives (`str.strip`, `float(...)`, the `json` module, SQLite
behaviour of the statements actually issued) are modelled explicitly; the
model is restricted to ASCII semantics where Python is Unicode aware
(`str.isalnum`, `str.lower`, Unicode whitespace); every comment on a
definition notes such restrictions.
-/

namespace Stok

/-! ## Python string primitives -/

/-- Whitespace as stripped by Python's `str.strip()` (ASCII part: space,
tab, newline, vertical tab, form feed, carriage return). -/
def isPyWs (c : Char) : Bool :=
  c = ' ' || c = '\t' || c = '\n' || c = Char.ofNat 11 || c = Char.ofNat 12 || c = '\r'

/-- Remove trailing characters satisfying `p` (Python `rstrip`). -/
def rdropWhile (p : Char → Bool) : List Char → List Char
  | [] => []
  | c :: rest =>
    match rdropWhile p rest with
    | [] => if p c then [] else [c]
    | r => c :: r

/-- `str.strip()` on a character list. -/
def pyStripL (l : List Char) : List Char :=
  rdropWhile isPyWs (l.dropWhile isPyWs)

/-- `str.strip()`. -/
def pyStripS (s : String) : String :=
  String.mk (pyStripL s.data)

/-- `str.strip("'\"")`: remove surrounding single/double quote characters. -/
def isQuoteChar (c : Char) : Bool :=
  c = '\'' || c = '"'

def stripQuotes (l : List Char) : List Char :=
  rdropWhile isQuoteChar (l.dropWhile isQuoteChar)

/-- Python `str.split(',')`: split on every comma, keeping empty segments. -/
def splitComma : List Char → List (List Char)
  | [] => [[]]
  | c :: rest =>
    if c = ',' then [] :: splitComma rest
    else
      match splitComma rest with
      | t :: ts => (c :: t) :: ts
      | [] => [[c]]

/-- Python `str.replace('\\"', '"')`: replace every (non-overlapping,
left-to-right) occurrence of a backslash followed by a double quote with a
plain double quote. -/
def replEscQuote : List Char → List Char
  | '\\' :: '"' :: rest => '"' :: replEscQuote rest
  | c :: rest => c :: replEscQuote rest
  | [] => []

/-- ASCII `str.lower()` (Python lowercases the full Unicode range; all
identifiers handled by the code are ASCII). -/
def asciiLowerS (s : String) : String :=
  String.mk (s.data.map Char.toLower)

/-- Sanitization used by `add_column` / `rename_column` (stok.py lines 264,
535): keep alphanumerics and spaces, replace spaces by underscores,
lowercase.  `Char.isAlphanum` is the ASCII restriction of Python's
Unicode-aware `str.isalnum`. -/
def sanitizeName (raw : String) : String :=
  String.mk
    (((raw.data.filter (fun c => c.isAlphanum || c = ' ')).map
        (fun c => if c = ' ' then '_' else c)).map Char.toLower)

/-! ## Python `float(...)`

The code validates prices and numeric dynamic attributes with
`float(value)`.  We model the accepted decimal grammar: optional
whitespace, optional sign, `inf`/`infinity`/`nan` (case-insensitive) or a
decimal mantissa with optional fraction and exponent, with PEP-515 single
underscores between digits.  Finite values are modelled as exact rationals
(the claims never do float arithmetic, only acceptance/rejection and
storage). -/

inductive PyFloatV where
  | finite (q : Rat)
  | inf (neg : Bool)
  | nan
  deriving DecidableEq, Repr

/-- After one leading digit has been consumed: consume further digits,
allowing a single underscore between digits. -/
def digitsURest : List Char → (List Char × List Char)
  | '_' :: c :: rest =>
    if c.isDigit then
      let (ds, r) := digitsURest rest
      (c :: ds, r)
    else ([], '_' :: c :: rest)
  | c :: rest =>
    if c.isDigit then
      let (ds, r) := digitsURest rest
      (c :: ds, r)
    else ([], c :: rest)
  | [] => ([], [])

/-- Consume a nonempty digit run (with PEP-515 underscores); return the
digits without underscores and the remaining input. -/
def parseDigitsU : List Char → Option (List Char × List Char)
  | c :: rest =>
    if c.isDigit then
      let (ds, r) := digitsURest rest
      some (c :: ds, r)
    else none
  | [] => none

def natOfDigits (ds : List Char) : Nat :=
  ds.foldl (fun a c => a * 10 + (c.toNat - 48)) 0

/-- Build the rational value of `±(ip.fp)e(±ed)`: the mantissa digits
`ip ++ fp` read as an integer, scaled by the appropriate power of ten.
(`Rat.divInt` is used so the value kernel-reduces in witnesses.) -/
def ratOfParts (neg : Bool) (ip fp : List Char) (expNeg : Bool) (ed : List Char) : Rat :=
  let m : Nat := natOfDigits (ip ++ fp)
  let e : Nat := natOfDigits ed
  let num : Int := if neg then -(m : Int) else (m : Int)
  if expNeg then Rat.divInt num ((10 : Int) ^ (fp.length + e))
  else Rat.divInt (num * (10 : Int) ^ e) ((10 : Int) ^ fp.length)

/-- Parse the optional exponent part and require end of input. -/
def pyFloatExp (neg : Bool) (ip fp : List Char) : List Char → Option PyFloatV
  | [] => some (.finite (ratOfParts neg ip fp false []))
  | e :: r1 =>
    if e = 'e' || e = 'E' then
      let (en, r2) : Bool × List Char :=
        match r1 with
        | '-' :: r => (true, r)
        | '+' :: r => (false, r)
        | _ => (false, r1)
      match parseDigitsU r2 with
      | some (ed, r3) => if r3 = [] then some (.finite (ratOfParts neg ip fp en ed)) else none
      | none => none
    else none

/-- Model of Python `float(s)` (ASCII digits; `float` also strips Unicode
whitespace and accepts Unicode decimal digits, which no code path here
feeds it). Overflow to `inf` of huge finite literals is not modelled: the
claims only concern acceptance/rejection and exact decimal storage. -/
def pyFloat (s : String) : Option PyFloatV :=
  let cs0 := pyStripL s.data
  let (neg, cs) : Bool × List Char :=
    match cs0 with
    | '-' :: r => (true, r)
    | '+' :: r => (false, r)
    | _ => (false, cs0)
  let low := cs.map Char.toLower
  if low = "inf".data || low = "infinity".data then some (.inf neg)
  else if low = "nan".data then some .nan
  else
    match parseDigitsU cs with
    | some (ip, r1) =>
      match r1 with
      | '.' :: r2 =>
        (match parseDigitsU r2 with
         | some (fp, r3) => pyFloatExp neg ip fp r3
         | none => pyFloatExp neg ip [] r2)
      | _ => pyFloatExp neg ip [] r1
    | none =>
      match cs with
      | '.' :: r2 =>
        (match parseDigitsU r2 with
         | some (fp, r3) => pyFloatExp neg [] fp r3
         | none => none)
      | _ => none

/-! ## The Python `json` module

`add_column` stores option lists with `json.dumps(options_list)` and the
three read sites decode with `json.loads` plus a tolerant fallback.  We
model the JSON values Python can decode and both directions.  Python
strings may contain lone surrogates, which Lean's `Char` cannot represent;
inputs that decode to lone surrogates are modelled as parse failures (the
encoder never produces them). -/

inductive PyVal where
  | str (s : String)
  | numV (lexeme : String)
  | boolV (b : Bool)
  | nullV
  | arr (l : List PyVal)
  | obj (l : List (String × PyVal))

/-- Python `==` between a decoded JSON value and a `str` (used by the
`value not in col_options` membership test: strings only ever equal
strings). -/
def PyVal.eqStr : PyVal → String → Bool
  | .str t, s => t = s
  | _, _ => false

/-- One hexadecimal digit (lowercase, as produced by Python's
`'\\u{0:04x}'` formatting). -/
def hexChar (k : Nat) : Char :=
  if k < 10 then Char.ofNat (48 + k) else Char.ofNat (87 + k)

/-- Four-digit hexadecimal rendering of `n < 0x10000`. -/
def toHex4 (n : Nat) : List Char :=
  [hexChar (n / 4096 % 16), hexChar (n / 256 % 16), hexChar (n / 16 % 16), hexChar (n % 16)]

/-- `json.dumps` escaping of one character with the default
`ensure_ascii=True`: short escapes for `\\ " \b \t \n \f \r`, `\uXXXX`
for other control and all non-ASCII characters, surrogate pairs above
`0xFFFF`. -/
def escChar (c : Char) : List Char :=
  if c = '\\' then ['\\', '\\']
  else if c = '"' then ['\\', '"']
  else if c = Char.ofNat 8 then ['\\', 'b']
  else if c = '\t' then ['\\', 't']
  else if c = '\n' then ['\\', 'n']
  else if c = Char.ofNat 12 then ['\\', 'f']
  else if c = '\r' then ['\\', 'r']
  else if c.toNat < 0x20 then '\\' :: 'u' :: toHex4 c.toNat
  else if c.toNat < 0x7f then [c]
  else if c.toNat < 0x10000 then '\\' :: 'u' :: toHex4 c.toNat
  else
    let m := c.toNat - 0x10000
    '\\' :: 'u' :: toHex4 (0xd800 + m / 0x400) ++ '\\' :: 'u' :: toHex4 (0xdc00 + m % 0x400)

/-- `json.dumps` of one string. -/
def encStr (s : String) : List Char :=
  '"' :: (s.data.flatMap escChar ++ ['"'])

/-- Comma-space separated items (`json.dumps` default separator `", "`). -/
def encItems : List (List Char) → List Char
  | [] => []
  | [x] => x
  | x :: xs => x ++ ',' :: ' ' :: encItems xs

/-- `json.dumps` of a list of strings (the only shape the code serializes). -/
def jsonDumpsList (ts : List String) : String :=
  String.mk ('[' :: (encItems (ts.map encStr) ++ [']']))

/-- JSON whitespace (`json.decoder` skips only space, tab, newline, CR). -/
def isJsonWs (c : Char) : Bool :=
  c = ' ' || c = '\t' || c = '\n' || c = '\r'

def skipWs (cs : List Char) : List Char :=
  cs.dropWhile isJsonWs

def hexDigitVal (c : Char) : Option Nat :=
  if '0' ≤ c ∧ c ≤ '9' then some (c.toNat - 48)
  else if 'a' ≤ c ∧ c ≤ 'f' then some (c.toNat - 87)
  else if 'A' ≤ c ∧ c ≤ 'F' then some (c.toNat - 55)
  else none

def hex4Val (a b c d : Char) : Option Nat := do
  let x ← hexDigitVal a
  let y ← hexDigitVal b
  let z ← hexDigitVal c
  let w ← hexDigitVal d
  pure (((x * 16 + y) * 16 + z) * 16 + w)

/-- Decode a JSON string body (after the opening quote): returns the
decoded characters and the input after the closing quote.  Matches
Python's strict `scanstring`: raw control characters are rejected,
`\uXXXX` escapes are decoded with surrogate-pair joining.  The fuel
argument only serves structural recursion; every call site passes
`length + 1`, which cannot be exhausted since every decoded character
consumes at least one input character. -/
def parseJStr : Nat → List Char → Option (List Char × List Char)
  | 0, _ => none
  | fuel + 1, cs =>
    match cs with
    | [] => none
    | c :: cs1 =>
      if c = '"' then some ([], cs1)
      else if c = '\\' then
        match cs1 with
        | [] => none
        | e :: cs2 =>
          if e = '"' then (parseJStr fuel cs2).map (fun p => ('"' :: p.1, p.2))
          else if e = '\\' then (parseJStr fuel cs2).map (fun p => ('\\' :: p.1, p.2))
          else if e = '/' then (parseJStr fuel cs2).map (fun p => ('/' :: p.1, p.2))
          else if e = 'b' then (parseJStr fuel cs2).map (fun p => (Char.ofNat 8 :: p.1, p.2))
          else if e = 'f' then (parseJStr fuel cs2).map (fun p => (Char.ofNat 12 :: p.1, p.2))
          else if e = 'n' then (parseJStr fuel cs2).map (fun p => ('\n' :: p.1, p.2))
          else if e = 'r' then (parseJStr fuel cs2).map (fun p => ('\r' :: p.1, p.2))
          else if e = 't' then (parseJStr fuel cs2).map (fun p => ('\t' :: p.1, p.2))
          else if e = 'u' then
            match cs2 with
            | a :: b :: c2 :: d :: cs3 =>
              match hex4Val a b c2 d with
              | none => none
              | some n =>
                if n < 0xd800 ∨ 0xe000 ≤ n then
                  (parseJStr fuel cs3).map (fun p => (Char.ofNat n :: p.1, p.2))
                else if n < 0xdc00 then
                  match cs3 with
                  | s1 :: s2 :: a2 :: b2 :: c3 :: d2 :: cs4 =>
                    if s1 = '\\' ∧ s2 = 'u' then
                      match hex4Val a2 b2 c3 d2 with
                      | some m =>
                        if 0xdc00 ≤ m ∧ m < 0xe000 then
                          (parseJStr fuel cs4).map
                            (fun p =>
                              (Char.ofNat (0x10000 + (n - 0xd800) * 0x400 + (m - 0xdc00)) :: p.1,
                                p.2))
                        else none
                      | none => none
                    else none
                  | _ => none
                else none
            | _ => none
          else none
      else if c.toNat < 0x20 then none
      else (parseJStr fuel cs1).map (fun p => (c :: p.1, p.2))

/-- Lex a JSON number per `json.decoder.NUMBER_RE`:
`-?(0|[1-9]\d*)(\.\d+)?([eE][+-]?\d+)?`.  Returns the lexeme. -/
def parseJNum (cs : List Char) : Option (List Char × List Char) :=
  let signed : List Char × List Char :=
    match cs with
    | '-' :: r => (['-'], r)
    | _ => ([], cs)
  match signed.2 with
  | [] => none
  | c :: r =>
    if c = '0' ∨ ¬c.isDigit then
      if c = '0' then
        let (ip, r1) := (['0'], r)
        let (fr, r2) : List Char × List Char :=
          match r1 with
          | '.' :: r2a =>
            let ds := r2a.takeWhile Char.isDigit
            if ds = [] then ([], r1) else ('.' :: ds, r2a.dropWhile Char.isDigit)
          | _ => ([], r1)
        let (ex, r3) : List Char × List Char :=
          match r2 with
          | e :: r3a =>
            if e = 'e' ∨ e = 'E' then
              let (sg, r3b) : List Char × List Char :=
                match r3a with
                | '-' :: rb => (['-'], rb)
                | '+' :: rb => (['+'], rb)
                | _ => ([], r3a)
              let ds := r3b.takeWhile Char.isDigit
              if ds = [] then ([], r2) else (e :: (sg ++ ds), r3b.dropWhile Char.isDigit)
            else ([], r2)
          | _ => ([], r2)
        some (signed.1 ++ ip ++ fr ++ ex, r3)
      else none
    else
      let ip := c :: r.takeWhile Char.isDigit
      let r1 := r.dropWhile Char.isDigit
      let (fr, r2) : List Char × List Char :=
        match r1 with
        | '.' :: r2a =>
          let ds := r2a.takeWhile Char.isDigit
          if ds = [] then ([], r1) else ('.' :: ds, r2a.dropWhile Char.isDigit)
        | _ => ([], r1)
      let (ex, r3) : List Char × List Char :=
        match r2 with
        | e :: r3a =>
          if e = 'e' ∨ e = 'E' then
            let (sg, r3b) : List Char × List Char :=
              match r3a with
              | '-' :: rb => (['-'], rb)
              | '+' :: rb => (['+'], rb)
              | _ => ([], r3a)
            let ds := r3b.takeWhile Char.isDigit
            if ds = [] then ([], r2) else (e :: (sg ++ ds), r3b.dropWhile Char.isDigit)
          else ([], r2)
        | _ => ([], r2)
      some (signed.1 ++ ip ++ fr ++ ex, r3)

mutual

/-- Parse one JSON value (fuel-indexed; the top entry point supplies
`length + 2`, more than any input can consume).  Mirrors Python's scanner:
string, object, array, `null`/`true`/`false`, number, then the non-standard
constants `NaN`, `Infinity`, `-Infinity`. -/
def parseJVal : Nat → List Char → Option (PyVal × List Char)
  | 0, _ => none
  | fuel + 1, cs =>
    match skipWs cs with
    | [] => none
    | c :: cs1 =>
      if c = '"' then
        (parseJStr (cs1.length + 1) cs1).map (fun p => (PyVal.str (String.mk p.1), p.2))
      else if c = '[' then
        match skipWs cs1 with
        | ']' :: cs2 => some (.arr [], cs2)
        | cs2 => (parseArrItems fuel cs2).map (fun p => (PyVal.arr p.1, p.2))
      else if c = '{' then
        match skipWs cs1 with
        | '}' :: cs2 => some (.obj [], cs2)
        | cs2 => (parseObjItems fuel cs2).map (fun p => (PyVal.obj p.1, p.2))
      else if c = 'n' ∧ cs1.take 3 = ['u', 'l', 'l'] then some (.nullV, cs1.drop 3)
      else if c = 't' ∧ cs1.take 3 = ['r', 'u', 'e'] then some (.boolV true, cs1.drop 3)
      else if c = 'f' ∧ cs1.take 4 = ['a', 'l', 's', 'e'] then some (.boolV false, cs1.drop 4)
      else
        match parseJNum (c :: cs1) with
        | some (lx, r) => some (.numV (String.mk lx), r)
        | none =>
          if c = 'N' ∧ cs1.take 2 = ['a', 'N'] then some (.numV "NaN", cs1.drop 2)
          else if c = 'I' ∧ cs1.take 7 = ['n', 'f', 'i', 'n', 'i', 't', 'y'] then
            some (.numV "Infinity", cs1.drop 7)
          else if c = '-' ∧ cs1.take 8 = ['I', 'n', 'f', 'i', 'n', 'i', 't', 'y'] then
            some (.numV "-Infinity", cs1.drop 8)
          else none

/-- Parse the items of a non-empty JSON array (after `[` and leading
whitespace). -/
def parseArrItems : Nat → List Char → Option (List PyVal × List Char)
  | 0, _ => none
  | fuel + 1, cs =>
    match parseJVal fuel cs with
    | none => none
    | some (v, rest) =>
      match skipWs rest with
      | ',' :: r2 => (parseArrItems fuel r2).map (fun p => (v :: p.1, p.2))
      | ']' :: r2 => some ([v], r2)
      | _ => none

/-- Parse the members of a non-empty JSON object (after `{` and leading
whitespace). -/
def parseObjItems : Nat → List Char → Option (List (String × PyVal) × List Char)
  | 0, _ => none
  | fuel + 1, cs =>
    match cs with
    | '"' :: cs1 =>
      match parseJStr (cs1.length + 1) cs1 with
      | none => none
      | some (k, r1) =>
        match skipWs r1 with
        | ':' :: r2 =>
          match parseJVal fuel r2 with
          | none => none
          | some (v, r3) =>
            match skipWs r3 with
            | ',' :: r4 =>
              (parseObjItems fuel (skipWs r4)).map
                (fun p => ((String.mk k, v) :: p.1, p.2))
            | '}' :: r4 => some ([(String.mk k, v)], r4)
            | _ => none
        | _ => none
    | _ => none

end

/-- Model of `json.loads`: parse one value, then require only whitespace
afterwards. -/
def jsonLoads (s : String) : Option PyVal :=
  match parseJVal (s.length + 2) s.data with
  | some (v, rest) => if skipWs rest = [] then some v else none
  | none => none

/-! ## Option-list decoding (`resolve_options`)

The decode snippet appears verbatim at stok.py lines 174-200
(`stok_listesi`), 325-336 (`add_product`), 446-457 (`update_product`) and
660-671 (`export_excel`); we translate the `stok_listesi` copy, which the
spec names `resolve_options`.  (The other copies differ only in applying
`str.strip` inside the failure branch instead of before the decode; both
stages see the same stripped text on every input whose surrounding
whitespace is JSON whitespace.) -/

/-- Python `str.replace('[','')` / `.replace(']','')`: a one-character
pattern replace with an empty replacement is a filter. -/
def removeChar (c : Char) (l : List Char) : List Char :=
  l.filter (· ≠ c)

/-- The tolerant fallback scan (stok.py lines 183-190), applied to the
already-stripped stored value: drop bracket characters, re-strip, split on
commas, strip whitespace then surrounding quote characters from each
token, replace `\"` by `"`, keep nonempty tokens. -/
def fallbackScan (s : List Char) : List PyVal :=
  let cleaned := pyStripL (removeChar ']' (removeChar '[' s))
  if cleaned = [] then []
  else
    (((splitComma cleaned).map
        (fun opt => replEscQuote (stripQuotes (pyStripL opt)))).filter (· ≠ [])).map
      (fun t => PyVal.str (String.mk t))

/-- `resolve_options` (stok.py lines 171-195): empty/NULL stored values
yield no options; otherwise strip, strict-decode with `json.loads`
(keeping the value only if it is a list), and fall back to the tolerant
scan on decode failure. -/
def resolve_options (dbOptionsStr : Option String) : List PyVal :=
  match dbOptionsStr with
  | none => []
  | some s =>
    if s = "" then []
    else
      let stripped := pyStripS s
      match jsonLoads stripped with
      | some (.arr l) => l
      | some _ => []
      | none => fallbackScan stripped.data

/-! ## The tenant store

One SQLite database per tenant (`init_stock_table`, stok.py lines 50-141):
tables `products`, `inventory`, `stock_columns`, `user_column_visibility`.
Rows are kept in insertion (rowid) order; the `id INTEGER PRIMARY KEY
AUTOINCREMENT` counters are modelled by `next...Id` fields that only ever
increase (AUTOINCREMENT never reuses a rowid).

The `sqlite3` module is used without `PRAGMA foreign_keys = ON`, so the
`ON DELETE CASCADE` clause on `inventory.product_id` is inert: deleting a
product does not delete its inventory rows, and `update_inventory` can
insert rows for arbitrary `product_id` values. The model reflects that. -/

/-- A dynamic-attribute value as stored in a product row: dynamic columns
are declared `TEXT`, but `add_product`/`update_product` bind Python floats
(or `None`) for `number`-typed columns. -/
inductive DynVal where
  | text (s : String)
  | num (v : Option PyFloatV)

/-- A `products` row. -/
structure ProductRow where
  id : Nat
  userProductId : Nat
  name : String
  price : PyFloatV
  dyn : List (String × DynVal)

/-- An `inventory` row (`UNIQUE(product_id, location)` is enforced by the
operations below, as SQLite enforces it at write time). -/
structure InvRow where
  id : Nat
  productId : Nat
  quantity : Int
  location : String
  lastUpdated : String

/-- A `stock_columns` row (attribute definition). -/
structure ColumnDef where
  name : String
  type : String
  options : Option String

/-- A `user_column_visibility` row; `UNIQUE(column_name)` (not per user!)
is enforced by the `INSERT OR REPLACE` writes below.  `isVisible` stores
the 0/1 integer the code writes. -/
structure VisRow where
  userId : Nat
  columnName : String
  isVisible : Nat

structure Store where
  products : List ProductRow
  nextProductId : Nat
  inventory : List InvRow
  nextInvId : Nat
  stockColumns : List ColumnDef
  visibility : List VisRow
  /-- Column names of the physical `products` table, in `PRAGMA
  table_info` order. -/
  schema : List String

/-- The freshly provisioned store (`init_stock_table` on a new path). -/
def initStore : Store :=
  { products := []
    nextProductId := 1
    inventory := []
    nextInvId := 1
    stockColumns := []
    visibility := []
    schema := ["id", "user_product_id", "name", "price"] }

/-- The four reserved base columns (stok.py lines 265, 369, 485, 537, 621). -/
def reservedColumns : List String :=
  ["id", "user_product_id", "name", "price"]

/-- `request.form.get(key, '')`. -/
def formGet (form : List (String × String)) (key : String) : String :=
  ((form.find? (fun kv => kv.1 = key)).map (fun kv => kv.2)).getD ""

/-! ## Catalog Engine operations -/

/-- Failure modes of `add_product` / `update_product`, one per
flash-and-redirect (or rolled-back exception) branch. -/
inductive ProductFormError where
  | emptyName
  | invalidPrice
  | invalidNumeric (col : String)
  | invalidOption (col : String)
  | insertError
  deriving DecidableEq

/-- The column metadata `add_product` reads from `stock_columns`
(`dynamic_columns_info_dict`): type defaults to `text`, options decoded by
`resolve_options`. -/
def columnInfo (σ : Store) (col : String) : String × List PyVal :=
  match σ.stockColumns.find? (fun d => d.name = col) with
  | some d => (d.type, resolve_options d.options)
  | none => ("text", [])

/-- The validation/conversion loop over all non-reserved physical columns
(stok.py lines 368-386 and 484-502): `number` columns parse via `float`
(empty means `None`), `select` columns require membership in the decoded
option list when nonempty. -/
def buildDynValues (σ : Store) (form : List (String × String)) :
    List String → Except ProductFormError (List (String × DynVal))
  | [] => .ok []
  | col :: rest =>
    if col ∈ reservedColumns then buildDynValues σ form rest
    else
      let info := columnInfo σ col
      let value := pyStripS (formGet form col)
      if info.1 = "number" then
        if value = "" then
          (buildDynValues σ form rest).map (fun l => (col, .num none) :: l)
        else
          match pyFloat value with
          | some v => (buildDynValues σ form rest).map (fun l => (col, .num (some v)) :: l)
          | none => .error (.invalidNumeric col)
      else if info.1 = "select" then
        if value ≠ "" ∧ ¬(info.2.any (fun o => o.eqStr value)) then
          .error (.invalidOption col)
        else (buildDynValues σ form rest).map (fun l => (col, .text value) :: l)
      else (buildDynValues σ form rest).map (fun l => (col, .text value) :: l)

/-- `SELECT MAX(user_product_id) FROM products`, with `NULL` (empty table)
read as 0 (stok.py lines 342-344). -/
def maxUserProductId (ps : List ProductRow) : Nat :=
  ps.foldl (fun m p => max m p.userProductId) 0

/-- `add_product` (stok.py lines 307-403).  On an error branch nothing is
committed; the per-request connection is closed by `teardown_stock_request`
and the open implicit transaction rolls back, so an error leaves the store
unchanged (hence errors carry no state).  The `insertError` branch is the
generic `except` around the two INSERTs: the only statement that can fail
there is the default-inventory INSERT, when a row with the new rowid and
empty location already exists (possible because `update_inventory` inserts
unchecked `product_id`s). -/
def add_product (σ : Store) (form : List (String × String)) (now : String) :
    Except ProductFormError Store :=
  let nextUserId := maxUserProductId σ.products + 1
  let name := pyStripS (formGet form "name")
  let priceStr := pyStripS (formGet form "price")
  if name = "" then .error .emptyName
  else
    match pyFloat priceStr with
    | none => .error .invalidPrice
    | some price =>
      match buildDynValues σ form σ.schema with
      | .error e => .error e
      | .ok dynVals =>
        let pid := σ.nextProductId
        if σ.inventory.any (fun r => r.productId = pid ∧ r.location = "") then
          .error .insertError
        else
          .ok { σ with
            products := σ.products ++ [⟨pid, nextUserId, name, price, dynVals⟩]
            nextProductId := pid + 1
            inventory := σ.inventory ++ [⟨σ.nextInvId, pid, 0, "", now⟩]
            nextInvId := σ.nextInvId + 1 }

/-- `update_product` (stok.py lines 428-516): same validation as
`add_product`; the UPDATE replaces name, price and every non-reserved
column of the matching row (a missing id only changes the flash message). -/
def update_product (σ : Store) (productId : Nat) (form : List (String × String)) :
    Except ProductFormError Store :=
  let name := pyStripS (formGet form "name")
  let priceStr := pyStripS (formGet form "price")
  if name = "" then .error .emptyName
  else
    match pyFloat priceStr with
    | none => .error .invalidPrice
    | some price =>
      match buildDynValues σ form σ.schema with
      | .error e => .error e
      | .ok dynVals =>
        .ok { σ with
          products := σ.products.map (fun p =>
            if p.id = productId then
              { p with name := name, price := price, dyn := dynVals }
            else p) }

/-- `delete_product` (stok.py lines 405-425).  Foreign-key enforcement is
off, so only the `products` row goes away; a missing id only changes the
flash message. -/
def delete_product (σ : Store) (productId : Nat) : Store :=
  { σ with products := σ.products.filter (fun p => p.id ≠ productId) }

/-! ## Attribute Registry operations -/

inductive AddColumnError where
  | emptyName
  | invalidName
  | emptyOptions
  | duplicate
  deriving DecidableEq

/-- `add_column` (stok.py lines 246-304): strip the raw name; reject blank
input; sanitize; reject empty/reserved results; for `select`, build the
option list (comma-split, strip, drop empties) and reject an empty list;
reject (case-insensitively) names already on the `products` table;
otherwise add the physical column, the definition row (`INSERT OR
IGNORE`) and the requesting user's visibility row (`INSERT OR REPLACE`,
keyed on `UNIQUE(column_name)`). -/
def add_column (σ : Store) (userId : Nat)
    (newColumnRaw columnType optionsRawIn : String) : Except AddColumnError Store :=
  let newColRaw := pyStripS newColumnRaw
  let optionsRaw := pyStripS optionsRawIn
  if newColRaw = "" then .error .emptyName
  else
    let newCol := sanitizeName newColRaw
    if newCol = "" ∨ newCol ∈ reservedColumns then .error .invalidName
    else
      let optionsList :=
        ((splitComma optionsRaw.data).map (fun t => String.mk (pyStripL t))).filter (· ≠ "")
      if columnType = "select" ∧ optionsList = [] then .error .emptyOptions
      else
        let optionsJson : Option String :=
          if columnType = "select" then some (jsonDumpsList optionsList) else none
        if newCol ∈ σ.schema.map asciiLowerS then .error .duplicate
        else
          .ok { σ with
            schema := σ.schema ++ [newCol]
            stockColumns :=
              if σ.stockColumns.any (fun d => d.name = newCol) then σ.stockColumns
              else σ.stockColumns ++ [⟨newCol, columnType, optionsJson⟩]
            visibility :=
              σ.visibility.filter (fun v => v.columnName ≠ newCol) ++ [⟨userId, newCol, 1⟩] }

inductive RenameError where
  | missingField
  | invalidNewName
  | oldNotFound
  | duplicate
  deriving DecidableEq

/-- `rename_column` (stok.py lines 518-565): only the NEW name is
sanitized and checked against the reserved set; the old name is checked
only for (case-insensitive) existence among the physical columns.  On
success the physical column is renamed, the `stock_columns` row matching
the old name exactly is renamed, and the `user_column_visibility` rows
matching the old name AND the requesting user's id are renamed.  A missing
form field is modelled as the empty string (both are falsy). -/
def rename_column (σ : Store) (userId : Nat)
    (oldColumnName newColumnRaw0 : String) : Except RenameError Store :=
  let newColumnRaw := pyStripS newColumnRaw0
  if oldColumnName = "" ∨ newColumnRaw = "" then .error .missingField
  else
    let newColumnSafe := sanitizeName newColumnRaw
    if newColumnSafe = "" ∨ newColumnSafe ∈ reservedColumns then .error .invalidNewName
    else
      let existing := σ.schema.map asciiLowerS
      if asciiLowerS oldColumnName ∉ existing then .error .oldNotFound
      else if newColumnSafe ∈ existing then .error .duplicate
      else
        .ok { σ with
          schema := σ.schema.map (fun c =>
            if asciiLowerS c = asciiLowerS oldColumnName then newColumnSafe else c)
          stockColumns := σ.stockColumns.map (fun d =>
            if d.name = oldColumnName then { d with name := newColumnSafe } else d)
          visibility := σ.visibility.map (fun v =>
            if v.columnName = oldColumnName ∧ v.userId = userId then
              { v with columnName := newColumnSafe }
            else v) }

inductive OptionsError where
  | missingName
  | notFound
  | notSelect
  deriving DecidableEq

/-- `update_column_options` (stok.py lines 567-601): replace the stored
option list of an existing `select` column with the re-serialized
comma-split input (no emptiness check here). -/
def update_column_options (σ : Store) (columnName optionsRawIn : String) :
    Except OptionsError Store :=
  let optionsRaw := pyStripS optionsRawIn
  if columnName = "" then .error .missingName
  else
    let optionsList :=
      ((splitComma optionsRaw.data).map (fun t => String.mk (pyStripL t))).filter (· ≠ "")
    let optionsJson := jsonDumpsList optionsList
    match σ.stockColumns.find? (fun d => d.name = columnName) with
    | none => .error .notFound
    | some d =>
      if d.type ≠ "select" then .error .notSelect
      else
        .ok { σ with
          stockColumns := σ.stockColumns.map (fun d2 =>
            if d2.name = columnName then { d2 with options := some optionsJson } else d2) }

inductive VisibilityError where
  | missingName
  | protectedColumn
  deriving DecidableEq

/-- `toggle_column_visibility` (stok.py lines 604-632): reserved columns
are not configurable; otherwise `INSERT OR REPLACE` keyed on
`UNIQUE(column_name)`. -/
def toggle_column_visibility (σ : Store) (userId : Nat)
    (columnName : String) (isVisible : Bool) : Except VisibilityError Store :=
  if columnName = "" then .error .missingName
  else if columnName ∈ reservedColumns then .error .protectedColumn
  else
    .ok { σ with
      visibility := σ.visibility.filter (fun v => v.columnName ≠ columnName) ++
        [⟨userId, columnName, if isVisible then 1 else 0⟩] }

/-! ## Inventory Ledger operations -/

inductive InventoryError where
  | negativeQuantity
  | entryNotFound
  | duplicateLocation
  deriving DecidableEq

/-- `update_inventory` (stok.py lines 824-879), after the form fields have
been parsed (`product_id`/`quantity` via `int(...)`, failures of which
abort before any write).  With an `inventory_id`, an id-and-product scoped
UPDATE: zero matched rows is a 404; moving the row onto an occupied
`(product_id, location)` pair violates `UNIQUE(product_id, location)`,
raising `IntegrityError`, which the handler catches and rolls back.
Without an `inventory_id`, `INSERT OR REPLACE` keyed on that same
uniqueness: any conflicting row is deleted and a fresh row (new rowid) is
inserted. -/
def update_inventory (σ : Store) (productId : Nat) (inventoryId : Option Nat)
    (quantity : Int) (location0 : String) (now : String) :
    Except InventoryError Store :=
  let location := pyStripS location0
  if quantity < 0 then .error .negativeQuantity
  else
    match inventoryId with
    | some iid =>
      if ¬σ.inventory.any (fun r => r.id = iid ∧ r.productId = productId) then
        .error .entryNotFound
      else if σ.inventory.any (fun r =>
          r.id ≠ iid ∧ r.productId = productId ∧ r.location = location) then
        .error .duplicateLocation
      else
        .ok { σ with
          inventory := σ.inventory.map (fun r =>
            if r.id = iid ∧ r.productId = productId then
              { r with quantity := quantity, location := location, lastUpdated := now }
            else r) }
    | none =>
      .ok { σ with
        inventory :=
          σ.inventory.filter (fun r =>
            ¬(r.productId = productId ∧ r.location = location)) ++
          [⟨σ.nextInvId, productId, quantity, location, now⟩]
        nextInvId := σ.nextInvId + 1 }

/-- `delete_inventory_entry` (stok.py lines 881-896): unconditional delete
by id, success reported even for zero matched rows. -/
def delete_inventory_entry (σ : Store) (inventoryId : Nat) : Store :=
  { σ with inventory := σ.inventory.filter (fun r => r.id ≠ inventoryId) }

/-! ## Inventory listing (`envanter_listesi`) -/

/-- One row of a product's inventory as shown by the listing; the
placeholder row for products without entries has no id. -/
structure InvEntryView where
  inventoryId : Option Nat
  quantity : Int
  location : String
  lastUpdated : String
  deriving DecidableEq

/-- A listed product with its (possibly synthetic) inventory rows. -/
structure ProductInvView where
  id : Nat
  userProductId : Nat
  name : String
  price : PyFloatV
  inventoryEntries : List InvEntryView
  deriving DecidableEq

/-- Stable insertion sort, modelling `ORDER BY` (ties keep table order). -/
def insertSorted (le : α → α → Bool) (x : α) : List α → List α
  | [] => [x]
  | y :: ys => if le x y then x :: y :: ys else y :: insertSorted le x ys

def sortByKey (le : α → α → Bool) (l : List α) : List α :=
  l.foldr (insertSorted le) []

/-- Lexicographic order on UTF-8 text, as SQLite's default BINARY
collation orders TEXT (UTF-8 byte order coincides with code-point
order). -/
def charListLe : List Char → List Char → Bool
  | [], _ => true
  | _ :: _, [] => false
  | a :: as, b :: bs =>
    if a.toNat < b.toNat then true
    else if b.toNat < a.toNat then false
    else charListLe as bs

def strLe (a b : String) : Bool :=
  charListLe a.data b.data

/-- Contiguous-subsequence test. -/
def containsSeq (needle : List Char) : List Char → Bool
  | [] => needle = []
  | c :: rest => needle.isPrefixOf (c :: rest) || containsSeq needle rest

/-- SQLite `name LIKE '%f%'`: substring match, case-insensitive on ASCII.
(`%`/`_` wildcards inside the filter text are not modelled; no claim
concerns them.) -/
def likeContains (hay needle : String) : Bool :=
  containsSeq (needle.data.map Char.toLower) (hay.data.map Char.toLower)

/-- `envanter_listesi` (stok.py lines 733-821): products filtered by name
substring, ordered by display id; per product its inventory rows, filtered
by exact location when a location filter is set and ordered by location.
With a location filter, a product with no matching row is skipped
entirely; without one, a product with no rows gets a single synthetic
placeholder entry (no id, quantity 0, empty location, `N/A` timestamp). -/
def envanter_listesi (σ : Store) (productNameFilter0 locationFilter0 : String) :
    List ProductInvView :=
  let productNameFilter := pyStripS productNameFilter0
  let locationFilter := pyStripS locationFilter0
  let products :=
    sortByKey (fun p q => p.userProductId ≤ q.userProductId)
      (σ.products.filter (fun p =>
        productNameFilter = "" || likeContains p.name productNameFilter))
  products.filterMap (fun p =>
    let entries :=
      sortByKey (fun a b => strLe a.location b.location)
        (σ.inventory.filter (fun r =>
          r.productId = p.id && (locationFilter = "" || r.location = locationFilter)))
    if entries.isEmpty ∧ locationFilter ≠ "" then none
    else
      let shown : List InvEntryView :=
        if entries.isEmpty then [⟨none, 0, "", "N/A"⟩]
        else entries.map (fun r => ⟨some r.id, r.quantity, r.location, r.lastUpdated⟩)
      some ⟨p.id, p.userProductId, p.name, p.price, shown⟩)

/-! ## Reachable store states

Exactly the states produced from a freshly provisioned store by the
operations above (failed requests leave the state unchanged, see the
operation comments). -/

inductive Reachable : Store → Prop where
  | init : Reachable initStore
  | addProduct {σ σ' form now} :
      Reachable σ → add_product σ form now = .ok σ' → Reachable σ'
  | updateProduct {σ σ' pid form} :
      Reachable σ → update_product σ pid form = .ok σ' → Reachable σ'
  | deleteProduct {σ pid} :
      Reachable σ → Reachable (delete_product σ pid)
  | addColumn {σ σ' u raw ty opts} :
      Reachable σ → add_column σ u raw ty opts = .ok σ' → Reachable σ'
  | renameColumn {σ σ' u old new} :
      Reachable σ → rename_column σ u old new = .ok σ' → Reachable σ'
  | updateColumnOptions {σ σ' col opts} :
      Reachable σ → update_column_options σ col opts = .ok σ' → Reachable σ'
  | toggleVisibility {σ σ' u col vis} :
      Reachable σ → toggle_column_visibility σ u col vis = .ok σ' → Reachable σ'
  | updateInventory {σ σ' pid iid q loc now} :
      Reachable σ → update_inventory σ pid iid q loc now = .ok σ' → Reachable σ'
  | deleteInventoryEntry {σ iid} :
      Reachable σ → Reachable (delete_inventory_entry σ iid)

/-! ## Basic facts about the list utilities -/

theorem mem_insertSorted {le : α → α → Bool} {x a : α} {l : List α} :
    a ∈ insertSorted le x l ↔ a = x ∨ a ∈ l := by
  induction l with
  | nil => simp [insertSorted]
  | cons y ys ih =>
    simp only [insertSorted]
    split
    · simp [or_comm, or_assoc, or_left_comm]
    · simp [ih]
      tauto

theorem mem_sortByKey {le : α → α → Bool} {a : α} {l : List α} :
    a ∈ sortByKey le l ↔ a ∈ l := by
  induction l with
  | nil => simp [sortByKey]
  | cons y ys ih =>
    simp only [sortByKey, List.foldr_cons] at *
    rw [mem_insertSorted, ih]
    simp

/-! ## Inversion lemmas for the operations -/

theorem add_product_ok {σ σ' : Store} {form : List (String × String)} {now : String}
    (h : add_product σ form now = .ok σ') :
    ∃ price dynVals,
      pyStripS (formGet form "name") ≠ "" ∧
      pyFloat (pyStripS (formGet form "price")) = some price ∧
      buildDynValues σ form σ.schema = .ok dynVals ∧
      σ.inventory.any (fun r => r.productId = σ.nextProductId ∧ r.location = "") = false ∧
      σ' = { σ with
        products := σ.products ++
          [⟨σ.nextProductId, maxUserProductId σ.products + 1,
            pyStripS (formGet form "name"), price, dynVals⟩]
        nextProductId := σ.nextProductId + 1
        inventory := σ.inventory ++ [⟨σ.nextInvId, σ.nextProductId, 0, "", now⟩]
        nextInvId := σ.nextInvId + 1 } := by
  unfold add_product at h
  dsimp only at h
  split at h
  · exact Except.noConfusion h
  · split at h
    · exact Except.noConfusion h
    · rename_i price hprice
      split at h
      · exact Except.noConfusion h
      · rename_i dynVals hdyn
        split at h
        · exact Except.noConfusion h
        · rename_i hguard
          simp only [Except.ok.injEq] at h
          subst h
          exact ⟨price, dynVals, by assumption, hprice, hdyn,
            by simpa using hguard, rfl⟩

theorem update_product_ok {σ σ' : Store} {pid : Nat} {form : List (String × String)}
    (h : update_product σ pid form = .ok σ') :
    ∃ price dynVals,
      pyStripS (formGet form "name") ≠ "" ∧
      pyFloat (pyStripS (formGet form "price")) = some price ∧
      buildDynValues σ form σ.schema = .ok dynVals ∧
      σ' = { σ with
        products := σ.products.map (fun p =>
          if p.id = pid then
            { p with name := pyStripS (formGet form "name"), price := price, dyn := dynVals }
          else p) } := by
  unfold update_product at h
  dsimp only at h
  split at h
  · exact Except.noConfusion h
  · split at h
    · exact Except.noConfusion h
    · rename_i price hprice
      split at h
      · exact Except.noConfusion h
      · rename_i dynVals hdyn
        simp only [Except.ok.injEq] at h
        subst h
        exact ⟨price, dynVals, by assumption, hprice, hdyn, rfl⟩

theorem add_column_ok {σ σ' : Store} {u : Nat} {raw ty opts : String}
    (h : add_column σ u raw ty opts = .ok σ') :
    pyStripS raw ≠ "" ∧
    sanitizeName (pyStripS raw) ≠ "" ∧
    sanitizeName (pyStripS raw) ∉ reservedColumns ∧
    sanitizeName (pyStripS raw) ∉ σ.schema.map asciiLowerS ∧
    σ' = { σ with
      schema := σ.schema ++ [sanitizeName (pyStripS raw)]
      stockColumns :=
        if σ.stockColumns.any (fun d => d.name = sanitizeName (pyStripS raw)) then
          σ.stockColumns
        else
          σ.stockColumns ++
            [⟨sanitizeName (pyStripS raw), ty,
              if ty = "select" then
                some (jsonDumpsList
                  (((splitComma (pyStripS opts).data).map
                      (fun t => String.mk (pyStripL t))).filter (· ≠ "")))
              else none⟩]
      visibility :=
        σ.visibility.filter (fun v => v.columnName ≠ sanitizeName (pyStripS raw)) ++
          [⟨u, sanitizeName (pyStripS raw), 1⟩] } := by
  unfold add_column at h
  dsimp only at h
  split at h
  · exact Except.noConfusion h
  · rename_i hraw
    split at h
    · exact Except.noConfusion h
    · rename_i hsan
      push_neg at hsan
      split at h
      · exact Except.noConfusion h
      · split at h
        · exact Except.noConfusion h
        · rename_i hdup
          simp only [Except.ok.injEq] at h
          subst h
          exact ⟨hraw, hsan.1, hsan.2, hdup, rfl⟩

theorem rename_column_ok {σ σ' : Store} {u : Nat} {old new0 : String}
    (h : rename_column σ u old new0 = .ok σ') :
    old ≠ "" ∧
    pyStripS new0 ≠ "" ∧
    sanitizeName (pyStripS new0) ≠ "" ∧
    sanitizeName (pyStripS new0) ∉ reservedColumns ∧
    asciiLowerS old ∈ σ.schema.map asciiLowerS ∧
    sanitizeName (pyStripS new0) ∉ σ.schema.map asciiLowerS ∧
    σ' = { σ with
      schema := σ.schema.map (fun c =>
        if asciiLowerS c = asciiLowerS old then sanitizeName (pyStripS new0) else c)
      stockColumns := σ.stockColumns.map (fun d =>
        if d.name = old then { d with name := sanitizeName (pyStripS new0) } else d)
      visibility := σ.visibility.map (fun v =>
        if v.columnName = old ∧ v.userId = u then
          { v with columnName := sanitizeName (pyStripS new0) }
        else v) } := by
  unfold rename_column at h
  dsimp only at h
  split at h
  · exact Except.noConfusion h
  · rename_i hne
    push_neg at hne
    split at h
    · exact Except.noConfusion h
    · rename_i hsan
      push_neg at hsan
      split at h
      · exact Except.noConfusion h
      · rename_i hold
        rw [not_not] at hold
        split at h
        · exact Except.noConfusion h
        · rename_i hdup
          simp only [Except.ok.injEq] at h
          subst h
          exact ⟨hne.1, hne.2, hsan.1, hsan.2, hold, hdup, rfl⟩

theorem update_column_options_ok {σ σ' : Store} {col opts : String}
    (h : update_column_options σ col opts = .ok σ') :
    σ'.inventory = σ.inventory ∧ σ'.nextInvId = σ.nextInvId := by
  unfold update_column_options at h
  dsimp only at h
  split at h
  · exact Except.noConfusion h
  · split at h
    · exact Except.noConfusion h
    · split at h
      · exact Except.noConfusion h
      · simp only [Except.ok.injEq] at h
        subst h
        exact ⟨rfl, rfl⟩

theorem toggle_column_visibility_ok {σ σ' : Store} {u : Nat} {col : String} {vis : Bool}
    (h : toggle_column_visibility σ u col vis = .ok σ') :
    σ'.inventory = σ.inventory ∧ σ'.nextInvId = σ.nextInvId := by
  unfold toggle_column_visibility at h
  split at h
  · exact Except.noConfusion h
  · split at h
    · exact Except.noConfusion h
    · simp only [Except.ok.injEq] at h
      subst h
      exact ⟨rfl, rfl⟩

theorem update_inventory_ok {σ σ' : Store} {pid : Nat} {iid? : Option Nat} {q : Int}
    {loc0 now : String} (h : update_inventory σ pid iid? q loc0 now = .ok σ') :
    ¬q < 0 ∧
    ((∃ iid, iid? = some iid ∧
        σ.inventory.any (fun r => r.id = iid ∧ r.productId = pid) = true ∧
        σ.inventory.any (fun r =>
          r.id ≠ iid ∧ r.productId = pid ∧ r.location = pyStripS loc0) = false ∧
        σ' = { σ with
          inventory := σ.inventory.map (fun r =>
            if r.id = iid ∧ r.productId = pid then
              { r with quantity := q, location := pyStripS loc0, lastUpdated := now }
            else r) }) ∨
      (iid? = none ∧
        σ' = { σ with
          inventory :=
            σ.inventory.filter (fun r =>
              ¬(r.productId = pid ∧ r.location = pyStripS loc0)) ++
            [⟨σ.nextInvId, pid, q, pyStripS loc0, now⟩]
          nextInvId := σ.nextInvId + 1 })) := by
  unfold update_inventory at h
  dsimp only at h
  split at h
  · exact Except.noConfusion h
  · rename_i hq
    refine ⟨hq, ?_⟩
    split at h
    · rename_i iid
      split at h
      · exact Except.noConfusion h
      · rename_i hfound
        rw [not_not] at hfound
        split at h
        · exact Except.noConfusion h
        · rename_i hdup
          simp only [Except.ok.injEq] at h
          subst h
          exact .inl ⟨iid, rfl, hfound, by simpa using hdup, rfl⟩
    · simp only [Except.ok.injEq] at h
      subst h
      exact .inr ⟨rfl, rfl⟩

/-! ## The inventory uniqueness invariant (for C2) -/

/-- Well-formedness of the inventory table, maintained by every operation:
rowids are below the AUTOINCREMENT counter and pairwise distinct, and the
`UNIQUE(product_id, location)` key is pairwise distinct. -/
def InvWF (σ : Store) : Prop :=
  (∀ r ∈ σ.inventory, r.id < σ.nextInvId) ∧
  σ.inventory.Pairwise (fun a b => a.id ≠ b.id) ∧
  σ.inventory.Pairwise (fun a b => ¬(a.productId = b.productId ∧ a.location = b.location))

theorem invWF_append_fresh {σ : Store} (hwf : InvWF σ) (pid : Nat) (q : Int)
    (loc now : String)
    (hkey : ∀ r ∈ σ.inventory, ¬(r.productId = pid ∧ r.location = loc)) :
    InvWF { σ with
      inventory := σ.inventory ++ [⟨σ.nextInvId, pid, q, loc, now⟩]
      nextInvId := σ.nextInvId + 1 } := by
  obtain ⟨hbound, hids, hkeys⟩ := hwf
  refine ⟨?_, ?_, ?_⟩
  · intro r hr
    simp only [List.mem_append, List.mem_singleton] at hr
    rcases hr with hr | rfl
    · exact Nat.lt_succ_of_lt (hbound r hr)
    · exact Nat.lt_succ_self _
  · rw [List.pairwise_append]
    refine ⟨hids, List.pairwise_singleton _ _, ?_⟩
    intro a ha b hb
    simp only [List.mem_singleton] at hb
    subst hb
    exact Nat.ne_of_lt (hbound a ha)
  · rw [List.pairwise_append]
    refine ⟨hkeys, List.pairwise_singleton _ _, ?_⟩
    intro a ha b hb
    simp only [List.mem_singleton] at hb
    subst hb
    exact hkey a ha

theorem invWF_filter {σ : Store} (hwf : InvWF σ) (p : InvRow → Bool) :
    InvWF { σ with inventory := σ.inventory.filter p } := by
  obtain ⟨hbound, hids, hkeys⟩ := hwf
  exact ⟨fun r hr => hbound r (List.mem_of_mem_filter hr),
    hids.filter p, hkeys.filter p⟩

theorem reachable_invWF {σ : Store} (h : Reachable σ) : InvWF σ := by
  induction h with
  | init => exact ⟨by simp [initStore], by simp [initStore], by simp [initStore]⟩
  | addProduct hr hok ih =>
    obtain ⟨price, dynVals, -, -, -, hguard, rfl⟩ := add_product_ok hok
    rw [List.any_eq_false] at hguard
    exact invWF_append_fresh ih _ _ _ _ (fun r hr => by simpa using hguard r hr)
  | updateProduct hr hok ih =>
    obtain ⟨price, dynVals, -, -, -, rfl⟩ := update_product_ok hok
    exact ih
  | deleteProduct hr ih => exact ih
  | addColumn hr hok ih =>
    obtain ⟨-, -, -, -, rfl⟩ := add_column_ok hok
    exact ih
  | renameColumn hr hok ih =>
    obtain ⟨-, -, -, -, -, -, rfl⟩ := rename_column_ok hok
    exact ih
  | updateColumnOptions hr hok ih =>
    obtain ⟨hinv, hnid⟩ := update_column_options_ok hok
    exact ⟨fun r h2 => hnid ▸ ih.1 r (hinv ▸ h2), hinv ▸ ih.2.1, hinv ▸ ih.2.2⟩
  | toggleVisibility hr hok ih =>
    obtain ⟨hinv, hnid⟩ := toggle_column_visibility_ok hok
    exact ⟨fun r h2 => hnid ▸ ih.1 r (hinv ▸ h2), hinv ▸ ih.2.1, hinv ▸ ih.2.2⟩
  | updateInventory hr hok ih =>
    obtain ⟨hq, hcase⟩ := update_inventory_ok hok
    rcases hcase with ⟨iid, rfl, hfound, hdup, rfl⟩ | ⟨rfl, rfl⟩
    · rw [List.any_eq_false] at hdup
      obtain ⟨hbound, hids, hkeys⟩ := ih
      refine ⟨?_, ?_, ?_⟩
      · intro r hr
        simp only [List.mem_map] at hr
        obtain ⟨r0, hr0, rfl0⟩ := hr
        have : r.id = r0.id := by
          subst rfl0
          split <;> rfl
        rw [this]
        exact hbound r0 hr0
      · rw [List.pairwise_map]
        refine hids.imp_of_mem (fun {a b} ha hb hne => ?_)
        split <;> split <;> simpa using hne
      · rw [List.pairwise_map]
        refine ((hids.and hkeys).imp_of_mem (fun {a b} ha hb hab => ?_))
        obtain ⟨hne, hkey⟩ := hab
        split
        · rename_i hA
          split
          · rename_i hB
            exact absurd (hA.1.trans hB.1.symm) hne
          · rename_i hB
            intro hcon
            obtain ⟨h1, h2⟩ := hcon
            simp only at h1 h2
            have hbpid := h1 ▸ hA.2
            have hbid : b.id ≠ iid := fun hbid => hB ⟨hbid, hbpid⟩
            have hd := hdup b hb
            simp only [decide_eq_true_eq, not_and, ne_eq, not_not] at hd
            exact absurd h2.symm (hd hbid hbpid)
        · rename_i hA
          split
          · rename_i hB
            intro hcon
            obtain ⟨h1, h2⟩ := hcon
            simp only at h1 h2
            have hapid := h1.symm ▸ hB.2
            have haid : a.id ≠ iid := fun haid => hA ⟨haid, hapid⟩
            have hd := hdup a ha
            simp only [decide_eq_true_eq, not_and, ne_eq, not_not] at hd
            exact absurd h2 (hd haid hapid)
          · exact hkey
    · obtain ⟨hbound, hids, hkeys⟩ := ih
      refine ⟨?_, ?_, ?_⟩
      · intro r hr
        simp only [List.mem_append, List.mem_singleton] at hr
        rcases hr with hr | rfl
        · exact Nat.lt_succ_of_lt (hbound r (List.mem_of_mem_filter hr))
        · exact Nat.lt_succ_self _
      · rw [List.pairwise_append]
        refine ⟨hids.filter _, List.pairwise_singleton _ _, ?_⟩
        intro a ha b hb
        simp only [List.mem_singleton] at hb
        subst hb
        exact Nat.ne_of_lt (hbound a (List.mem_of_mem_filter ha))
      · rw [List.pairwise_append]
        refine ⟨hkeys.filter _, List.pairwise_singleton _ _, ?_⟩
        intro a ha b hb
        simp only [List.mem_singleton] at hb
        subst hb
        intro hcon
        have hf := List.of_mem_filter ha
        simp [hcon.1, hcon.2] at hf
  | deleteInventoryEntry hr ih => exact invWF_filter ih _

theorem pairwise_key_unique {l : List InvRow}
    (h : l.Pairwise (fun a b => ¬(a.productId = b.productId ∧ a.location = b.location))) :
    ∀ r1 ∈ l, ∀ r2 ∈ l, r1.productId = r2.productId → r1.location = r2.location → r1 = r2 := by
  induction l with
  | nil => intro r1 hr1; simp at hr1
  | cons a t ih =>
    obtain ⟨ha, ht⟩ := List.pairwise_cons.mp h
    intro r1 hr1 r2 hr2 hpid hloc
    rcases List.mem_cons.mp hr1 with h1 | h1 <;>
      rcases List.mem_cons.mp hr2 with h2 | h2
    · rw [h1, h2]
    · subst h1
      exact absurd ⟨hpid, hloc⟩ (ha r2 h2)
    · subst h2
      exact absurd ⟨hpid.symm, hloc.symm⟩ (ha r1 h1)
    · exact ih ht r1 h1 r2 h2 hpid hloc

/-- C2: in every reachable store state each product has at most one
inventory entry per location string (the empty string included), and two
id-less upserts on the same `(product_id, location)` pair leave exactly
one entry for the pair, carrying the second quantity. -/
theorem C2_inventory_location_unique (σ : Store) (h : Reachable σ) :
    (∀ r1 ∈ σ.inventory, ∀ r2 ∈ σ.inventory,
      r1.productId = r2.productId → r1.location = r2.location → r1 = r2) ∧
    (∀ (pid : Nat) (loc : String) (q1 q2 : Int) (t1 t2 : String) (σ1 σ2 : Store),
      pyStripS loc = loc →
      update_inventory σ pid none q1 loc t1 = .ok σ1 →
      update_inventory σ1 pid none q2 loc t2 = .ok σ2 →
      σ2.inventory.filter (fun r => r.productId = pid ∧ r.location = loc) =
        [⟨σ.nextInvId + 1, pid, q2, loc, t2⟩]) := by
  constructor
  · exact pairwise_key_unique (reachable_invWF h).2.2
  · intro pid loc q1 q2 t1 t2 σ1 σ2 hstrip h1 h2
    obtain ⟨-, hc1⟩ := update_inventory_ok h1
    rcases hc1 with ⟨iid, hiid, -⟩ | ⟨-, rfl⟩
    · exact Option.noConfusion hiid
    obtain ⟨-, hc2⟩ := update_inventory_ok h2
    rcases hc2 with ⟨iid, hiid, -⟩ | ⟨-, rfl⟩
    · exact Option.noConfusion hiid
    have hnil : ∀ (l : List InvRow),
        (l.filter (fun r => ¬(r.productId = pid ∧ r.location = loc))).filter
          (fun r => r.productId = pid ∧ r.location = loc) = [] := by
      intro l
      rw [List.filter_eq_nil_iff]
      intro a ha hcon
      have hf := List.of_mem_filter ha
      simp only [decide_eq_true_eq] at hcon
      simp [hcon.1, hcon.2] at hf
    rw [hstrip]
    dsimp only
    simp only [List.filter_append]
    rw [hnil, hnil]
    simp

theorem C2_inventory_location_unique_witness :
    (∀ r1 ∈ initStore.inventory, ∀ r2 ∈ initStore.inventory,
      r1.productId = r2.productId → r1.location = r2.location → r1 = r2) ∧
    ({ initStore with
        inventory := [⟨2, 1, 7, "A", "t2"⟩]
        nextInvId := 3 : Store }.inventory.filter
      (fun r => r.productId = 1 ∧ r.location = "A")) = [⟨2, 1, 7, "A", "t2"⟩] := by
  have h := C2_inventory_location_unique initStore Reachable.init
  refine ⟨h.1, ?_⟩
  have h2 := h.2 1 "A" 5 7 "t1" "t2"
    { initStore with inventory := [⟨1, 1, 5, "A", "t1"⟩], nextInvId := 2 }
    { initStore with inventory := [⟨2, 1, 7, "A", "t2"⟩], nextInvId := 3 }
    rfl rfl rfl
  simp only at h2
  exact h2

/-- Errors produced by the dynamic-column validation loop are always
column-specific (never the price error). -/
theorem buildDynValues_error_cases {σ : Store} {form : List (String × String)}
    {cols : List String} {e : ProductFormError}
    (h : buildDynValues σ form cols = .error e) :
    (∃ c, e = .invalidNumeric c) ∨ (∃ c, e = .invalidOption c) := by
  induction cols with
  | nil => exact Except.noConfusion h
  | cons col rest ih =>
    unfold buildDynValues at h
    dsimp only at h
    split at h
    · exact ih h
    · split at h
      · split at h
        · cases hb : buildDynValues σ form rest with
          | error e2 =>
            rw [hb] at h
            simp only [Except.map] at h
            cases h
            exact ih hb
          | ok l =>
            rw [hb] at h
            simp only [Except.map] at h
            exact Except.noConfusion h
        · split at h
          · cases hb : buildDynValues σ form rest with
            | error e2 =>
              rw [hb] at h
              simp only [Except.map] at h
              cases h
              exact ih hb
            | ok l =>
              rw [hb] at h
              simp only [Except.map] at h
              exact Except.noConfusion h
          · cases h
            exact .inl ⟨col, rfl⟩
      · split at h
        · split at h
          · cases h
            exact .inr ⟨col, rfl⟩
          · cases hb : buildDynValues σ form rest with
            | error e2 =>
              rw [hb] at h
              simp only [Except.map] at h
              cases h
              exact ih hb
            | ok l =>
              rw [hb] at h
              simp only [Except.map] at h
              exact Except.noConfusion h
        · cases hb : buildDynValues σ form rest with
          | error e2 =>
            rw [hb] at h
            simp only [Except.map] at h
            cases h
            exact ih hb
          | ok l =>
            rw [hb] at h
            simp only [Except.map] at h
            exact Except.noConfusion h

/-! ## C1: display identifier assignment -/

/-- C1 (counterexample): `add_product` computes the display id as
`MAX(user_product_id)` over the products *currently* in the store, so a
display id IS reused after deleting the product holding the maximum.
Creating products a, b, c assigns display ids 1, 2, 3; deleting the
product with internal id 3 (display id 3) and creating product d assigns
display id 3 again — not an id strictly greater than every id ever
assigned. -/
theorem C1_display_id_reuse_counterexample :
    ((add_product initStore [("name", "a"), ("price", "1")] "t").bind (fun σ1 =>
      (add_product σ1 [("name", "b"), ("price", "1")] "t").bind (fun σ2 =>
        (add_product σ2 [("name", "c"), ("price", "1")] "t").map (fun σ3 =>
          (σ3.products.map (fun p => (p.id, p.userProductId)),
            (add_product (delete_product σ3 3) [("name", "d"), ("price", "1")] "t").map
              (fun σ5 => σ5.products.map (fun p => p.userProductId))))))) =
      .ok ([(1, 1), (2, 2), (3, 3)], .ok [1, 2, 3]) := by
  rfl

/-- C1 (amended): a successful product creation assigns a display id of
one plus the maximum display id among the products currently in the store
(1 on an empty store) — so sequential creation yields 1, 2, 3 and deleting
product 2 then creating yields 4; the id of a deleted product that held
the current maximum can be reused. -/
theorem C1_display_id_assignment :
    (∀ (σ σ' : Store) (form : List (String × String)) (now : String),
      add_product σ form now = .ok σ' →
      ∃ p, σ'.products = σ.products ++ [p] ∧
        p.userProductId = maxUserProductId σ.products + 1) ∧
    ((add_product initStore [("name", "a"), ("price", "1")] "t").bind (fun σ1 =>
      (add_product σ1 [("name", "b"), ("price", "1")] "t").bind (fun σ2 =>
        (add_product σ2 [("name", "c"), ("price", "1")] "t").bind (fun σ3 =>
          (add_product (delete_product σ3 2) [("name", "d"), ("price", "1")] "t").map
            (fun σ5 => σ5.products.map (fun p => p.userProductId)))))) =
      .ok [1, 3, 4] := by
  constructor
  · intro σ σ' form now h
    obtain ⟨price, dynVals, -, -, -, -, rfl⟩ := add_product_ok h
    exact ⟨_, rfl, rfl⟩
  · rfl

theorem C1_display_id_assignment_witness :
    ∃ p, ({ initStore with
        products := [⟨1, 1, "a", .finite 1, []⟩]
        nextProductId := 2
        inventory := [⟨1, 1, 0, "", "t"⟩]
        nextInvId := 2 : Store }).products = initStore.products ++ [p] ∧
      p.userProductId = maxUserProductId initStore.products + 1 :=
  C1_display_id_assignment.1 initStore _ [("name", "a"), ("price", "1")] "t" rfl

/-! ## C5: atomicity of product creation -/

/-- C5: `add_product` either persists exactly the new product row together
with its single default inventory entry (location `""`, quantity 0), or
fails with no state change (an exception aborts before `commit`, and the
implicit transaction is rolled back when the per-request connection is
closed — failures carry no state in the model).  The spec scenario: on a
fresh store, creating `Widget`/`9.99` yields display id 1, price 9.99 and
exactly one inventory entry `("", 0)`; and a creation whose second write
would collide fails wholesale with `insertError`. -/
theorem C5_create_product_atomic :
    (∀ (σ σ' : Store) (form : List (String × String)) (now : String),
      add_product σ form now = .ok σ' →
      ∃ p, p.id = σ.nextProductId ∧
        σ'.products = σ.products ++ [p] ∧
        σ'.inventory = σ.inventory ++ [⟨σ.nextInvId, p.id, 0, "", now⟩]) ∧
    ((add_product initStore [("name", "Widget"), ("price", "9.99")] "t0").map
        (fun σ => (σ.products.map (fun p => (p.userProductId, p.price)),
          σ.inventory.map (fun r => (r.productId, r.location, r.quantity)))) =
      .ok ([(1, .finite (Rat.divInt 999 100))], [(1, "", 0)])) ∧
    (add_product
        { initStore with inventory := [⟨1, 1, 3, "", "t"⟩], nextInvId := 2 }
        [("name", "X"), ("price", "1")] "t2" = .error .insertError) := by
  refine ⟨?_, rfl, rfl⟩
  intro σ σ' form now h
  obtain ⟨price, dynVals, -, -, -, -, rfl⟩ := add_product_ok h
  exact ⟨_, rfl, rfl, rfl⟩

theorem C5_create_product_atomic_witness :
    ∃ p, p.id = initStore.nextProductId ∧
      ({ initStore with
          products := [⟨1, 1, "Widget", .finite (Rat.divInt 999 100), []⟩]
          nextProductId := 2
          inventory := [⟨1, 1, 0, "", "t0"⟩]
          nextInvId := 2 : Store }).products = initStore.products ++ [p] ∧
      ({ initStore with
          products := [⟨1, 1, "Widget", .finite (Rat.divInt 999 100), []⟩]
          nextProductId := 2
          inventory := [⟨1, 1, 0, "", "t0"⟩]
          nextInvId := 2 : Store }).inventory =
        initStore.inventory ++ [⟨initStore.nextInvId, p.id, 0, "", "t0"⟩] :=
  C5_create_product_atomic.1 initStore _ [("name", "Widget"), ("price", "9.99")] "t0" rfl

/-! ## C6: price validation -/

/-- C6: with a nonempty name, product creation and update fail with the
invalid-price error exactly when the price string does not parse via
`float(...)`; any parseable price — including strictly negative ones — is
accepted past the price check (no non-negativity test exists). -/
theorem C6_invalid_price_iff :
    ∀ (σ : Store) (form : List (String × String)) (now : String) (pid : Nat),
      pyStripS (formGet form "name") ≠ "" →
      ((add_product σ form now = .error .invalidPrice ↔
          pyFloat (pyStripS (formGet form "price")) = none) ∧
        (update_product σ pid form = .error .invalidPrice ↔
          pyFloat (pyStripS (formGet form "price")) = none)) := by
  intro σ form now pid hname
  constructor
  · constructor
    · intro h
      unfold add_product at h
      dsimp only at h
      rw [if_neg hname] at h
      cases hp : pyFloat (pyStripS (formGet form "price")) with
      | none => rfl
      | some price =>
        rw [hp] at h
        dsimp only at h
        split at h
        · rename_i e he
          cases h
          rcases buildDynValues_error_cases he with ⟨c, hc⟩ | ⟨c, hc⟩ <;>
            exact ProductFormError.noConfusion hc
        · split at h
          · exact absurd h (by simp)
          · exact Except.noConfusion h
    · intro hp
      unfold add_product
      dsimp only
      rw [if_neg hname, hp]
  · constructor
    · intro h
      unfold update_product at h
      dsimp only at h
      rw [if_neg hname] at h
      cases hp : pyFloat (pyStripS (formGet form "price")) with
      | none => rfl
      | some price =>
        rw [hp] at h
        dsimp only at h
        split at h
        · rename_i e he
          cases h
          rcases buildDynValues_error_cases he with ⟨c, hc⟩ | ⟨c, hc⟩ <;>
            exact ProductFormError.noConfusion hc
        · exact Except.noConfusion h
    · intro hp
      unfold update_product
      dsimp only
      rw [if_neg hname, hp]

theorem C6_invalid_price_iff_witness :
    pyStripS (formGet [("name", "x"), ("price", "-5")] "name") ≠ "" ∧
    ¬(add_product initStore [("name", "x"), ("price", "-5")] "t" =
        .error .invalidPrice) ∧
    ¬(update_product initStore 1 [("name", "x"), ("price", "-5")] =
        .error .invalidPrice) := by
  have h := C6_invalid_price_iff initStore [("name", "x"), ("price", "-5")] "t" 1
    (by decide)
  exact ⟨by decide,
    fun hc => absurd (h.1.mp hc) (by decide),
    fun hc => absurd (h.2.mp hc) (by decide)⟩

/-- The store a request leaves behind: the new state on success, the old
state on failure (nothing was committed, and closing the per-request
connection rolls the implicit transaction back). -/
def requestState (r : Except ε Store) (σ : Store) : Store :=
  r.toOption.getD σ

/-! ## C3: rename cascade over visibility preferences -/

/-- C3 (counterexample): user 2 defines attribute `color` (which stores a
Visibility Preference row for user 2); user 1 renames `color` to `colour`.
The rename succeeds, renames the definition record and the physical
column, but leaves user 2's Visibility Preference row at `color`: the
UPDATE is filtered by `AND user_id = ?` (stok.py line 557), so records of
other users sharing the store are NOT renamed. -/
theorem C3_rename_visibility_counterexample :
    ((add_column initStore 2 "color" "text" "").toOption.bind (fun σ1 =>
      (rename_column σ1 1 "color" "colour").toOption.map (fun (σ2 : Store) =>
        (σ2.schema, σ2.stockColumns.map (fun d => d.name), σ2.visibility)))) =
      some (["id", "user_product_id", "name", "price", "colour"], ["colour"],
        [⟨2, "color", 1⟩]) := by
  rfl

/-- C3 (amended): a successful rename changes the attribute definition
record, the physical column, and the Visibility Preference records whose
`column_name` equals the old name AND whose `user_id` is the requesting
user's — records of other users are left unchanged, not renamed. -/
theorem C3_rename_cascade :
    ∀ (σ σ' : Store) (u : Nat) (old new0 : String),
      rename_column σ u old new0 = .ok σ' →
      σ'.schema = σ.schema.map (fun c =>
        if asciiLowerS c = asciiLowerS old then sanitizeName (pyStripS new0) else c) ∧
      σ'.stockColumns = σ.stockColumns.map (fun d =>
        if d.name = old then { d with name := sanitizeName (pyStripS new0) } else d) ∧
      σ'.visibility = σ.visibility.map (fun v =>
        if v.columnName = old ∧ v.userId = u then
          { v with columnName := sanitizeName (pyStripS new0) }
        else v) ∧
      (∀ v ∈ σ.visibility, v.userId ≠ u → v ∈ σ'.visibility) := by
  intro σ σ' u old new0 h
  obtain ⟨-, -, -, -, -, -, rfl⟩ := rename_column_ok h
  refine ⟨rfl, rfl, rfl, ?_⟩
  intro v hv hvu
  have : (if v.columnName = old ∧ v.userId = u then
      { v with columnName := sanitizeName (pyStripS new0) } else v) = v := by
    rw [if_neg]
    intro hcon
    exact hvu hcon.2
  exact this ▸ List.mem_map_of_mem _ hv

theorem C3_rename_cascade_witness :
    ({ initStore with
        schema := ["id", "user_product_id", "name", "price", "colour"]
        stockColumns := [⟨"colour", "text", none⟩]
        visibility := [⟨2, "color", 1⟩] : Store }).visibility =
      ({ initStore with
          schema := ["id", "user_product_id", "name", "price", "color"]
          stockColumns := [⟨"color", "text", none⟩]
          visibility := [⟨2, "color", 1⟩] : Store }).visibility.map (fun v =>
        if v.columnName = "color" ∧ v.userId = 1 then
          { v with columnName := sanitizeName (pyStripS "colour") }
        else v) ∧
    (∀ v ∈ ({ initStore with
        schema := ["id", "user_product_id", "name", "price", "color"]
        stockColumns := [⟨"color", "text", none⟩]
        visibility := [⟨2, "color", 1⟩] : Store }).visibility, v.userId ≠ 1 →
      v ∈ ({ initStore with
        schema := ["id", "user_product_id", "name", "price", "colour"]
        stockColumns := [⟨"colour", "text", none⟩]
        visibility := [⟨2, "color", 1⟩] : Store }).visibility) := by
  have h := C3_rename_cascade
    { initStore with
        schema := ["id", "user_product_id", "name", "price", "color"]
        stockColumns := [⟨"color", "text", none⟩]
        visibility := [⟨2, "color", 1⟩] }
    { initStore with
        schema := ["id", "user_product_id", "name", "price", "colour"]
        stockColumns := [⟨"colour", "text", none⟩]
        visibility := [⟨2, "color", 1⟩] }
    1 "color" "colour" rfl
  exact ⟨h.2.2.1, h.2.2.2⟩

/-! ## C4: attribute definition validation -/

/-- C4: `define` sanitizes the raw name (keep alphanumerics and spaces,
spaces to underscores, lowercase) and rejects names that are blank or
sanitize to the empty string or to a reserved name (the code uses two
message branches — blank input and invalid/reserved — both are the spec's
`InvalidAttributeName`); it rejects a sanitized name that case-
insensitively matches an existing product column as a duplicate, leaving
the schema and the attribute definitions unchanged. -/
theorem C4_define_validation :
    (∀ (σ : Store) (u : Nat) (ty opts : String),
      add_column σ u "  " ty opts = .error .emptyName) ∧
    (∀ (σ : Store) (u : Nat) (raw ty opts : String),
      sanitizeName (pyStripS raw) ∈ reservedColumns →
      add_column σ u raw ty opts = .error .invalidName) ∧
    (∀ (σ : Store) (u : Nat) (raw ty opts : String),
      pyStripS raw ≠ "" → sanitizeName (pyStripS raw) = "" →
      add_column σ u raw ty opts = .error .invalidName) ∧
    (∀ (σ : Store) (u : Nat) (raw ty opts : String),
      sanitizeName (pyStripS raw) ≠ "" →
      sanitizeName (pyStripS raw) ∉ reservedColumns →
      (ty = "select" →
        ((splitComma (pyStripS opts).data).map
          (fun t => String.mk (pyStripL t))).filter (· ≠ "") ≠ []) →
      ((add_column σ u raw ty opts = .error .duplicate ↔
          sanitizeName (pyStripS raw) ∈ σ.schema.map asciiLowerS) ∧
        (sanitizeName (pyStripS raw) ∈ σ.schema.map asciiLowerS →
          requestState (add_column σ u raw ty opts) σ = σ))) := by
  refine ⟨?_, ?_, ?_, ?_⟩
  · intro σ u ty opts
    have hs : pyStripS "  " = "" := by decide
    unfold add_column
    dsimp only
    rw [hs, if_pos rfl]
  · intro σ u raw ty opts hres
    unfold add_column
    dsimp only
    split
    · rename_i hraw
      rw [hraw] at hres
      exact absurd hres (by decide)
    · split
      · rfl
      · rename_i hcond
        exact absurd (Or.inr hres) hcond
  · intro σ u raw ty opts hraw hsan
    unfold add_column
    dsimp only
    rw [if_neg hraw]
    rw [if_pos (Or.inl hsan)]
  · intro σ u raw ty opts hsan hres hopts
    unfold add_column
    dsimp only
    split
    · rename_i hraw
      rw [hraw] at hsan
      exact absurd rfl hsan
    · split
      · rename_i hcond
        rcases hcond with h | h
        · exact absurd h hsan
        · exact absurd h hres
      · split
        · rename_i hsel
          exact absurd hsel.2 (hopts hsel.1)
        · constructor
          · constructor
            · intro h
              split at h
              · assumption
              · exact Except.noConfusion h
            · intro h
              rw [if_pos h]
          · intro h
            rw [if_pos h]
            rfl

theorem C4_define_validation_witness :
    add_column initStore 1 "  " "text" "" = .error .emptyName ∧
    add_column initStore 1 "Price" "text" "" = .error .invalidName ∧
    add_column initStore 1 "--" "text" "" = .error .invalidName ∧
    (add_column { initStore with schema := initStore.schema ++ ["color"] }
        1 "Color" "text" "" = .error .duplicate ∧
      requestState (add_column { initStore with schema := initStore.schema ++ ["color"] }
        1 "Color" "text" "")
        { initStore with schema := initStore.schema ++ ["color"] } =
        { initStore with schema := initStore.schema ++ ["color"] }) := by
  refine ⟨C4_define_validation.1 initStore 1 "text" "",
    C4_define_validation.2.1 initStore 1 "Price" "text" "" (by decide),
    C4_define_validation.2.2.1 initStore 1 "--" "text" "" (by decide) (by decide), ?_, ?_⟩
  · exact (C4_define_validation.2.2.2 _ 1 "Color" "text" "" (by decide) (by decide)
      (fun h => absurd h (by decide))).1.mpr (by decide)
  · exact (C4_define_validation.2.2.2 _ 1 "Color" "text" "" (by decide) (by decide)
      (fun h => absurd h (by decide))).2 (by decide)

/-! ## C10: renaming reserved base columns -/

/-- C10: `rename_column` validates only the NEW name against the reserved
set; the old name is checked only for existence among the physical
columns.  Renaming a reserved base column (e.g. `price`) therefore
succeeds: the base column disappears from the physical schema, the
sanitized new name appears, and (no attribute definition existing for a
reserved column) the definition table is untouched, while product rows are
preserved — later code referencing the reserved column by its fixed name
now targets a column that no longer exists. -/
theorem C10_rename_reserved_base_column :
    ∀ (σ σ' : Store) (u : Nat) (old new0 : String),
      old ∈ reservedColumns →
      (∀ d ∈ σ.stockColumns, d.name ≠ old) →
      rename_column σ u old new0 = .ok σ' →
      σ'.stockColumns = σ.stockColumns ∧
      old ∉ σ'.schema ∧
      sanitizeName (pyStripS new0) ∈ σ'.schema ∧
      σ'.products = σ.products := by
  intro σ σ' u old new0 hold hdefs h
  obtain ⟨-, -, -, hnres, hmem, -, rfl⟩ := rename_column_ok h
  refine ⟨?_, ?_, ?_, rfl⟩
  · show σ.stockColumns.map _ = σ.stockColumns
    have h1 : σ.stockColumns.map (fun d =>
        if d.name = old then { d with name := sanitizeName (pyStripS new0) } else d) =
        σ.stockColumns.map id :=
      List.map_congr_left (fun d hd => by rw [if_neg (hdefs d hd)]; rfl)
    rw [h1, List.map_id]
  · show old ∉ σ.schema.map _
    intro hc
    simp only [List.mem_map] at hc
    obtain ⟨c, hc1, hc2⟩ := hc
    by_cases hlc : asciiLowerS c = asciiLowerS old
    · rw [if_pos hlc] at hc2
      rw [hc2] at hnres
      exact hnres hold
    · rw [if_neg hlc] at hc2
      exact hlc (hc2 ▸ rfl)
  · show sanitizeName (pyStripS new0) ∈ σ.schema.map _
    simp only [List.mem_map] at hmem
    obtain ⟨c, hc1, hc2⟩ := hmem
    exact List.mem_map.mpr ⟨c, hc1, by rw [if_pos hc2]⟩

theorem C10_rename_reserved_base_column_witness :
    "price" ∈ reservedColumns ∧
    ({ initStore with
        schema := ["id", "user_product_id", "name", "cost"] : Store }).stockColumns =
      initStore.stockColumns ∧
    "price" ∉ ({ initStore with
        schema := ["id", "user_product_id", "name", "cost"] : Store }).schema ∧
    sanitizeName (pyStripS "cost") ∈ ({ initStore with
        schema := ["id", "user_product_id", "name", "cost"] : Store }).schema := by
  have h := C10_rename_reserved_base_column initStore
    { initStore with schema := ["id", "user_product_id", "name", "cost"] }
    1 "price" "cost" (by decide) (fun d hd => by simp [initStore] at hd) rfl
  exact ⟨by decide, h.1, h.2.1, h.2.2.1⟩

/-! ## C7: location filtering and placeholder rows -/

/-- C7: with a non-empty location filter, every listed product shows only
real inventory rows at exactly that location (no placeholders), and a
product without an entry at the filtered location is excluded from the
listing entirely; with no location filter, every product passing the name
filter is listed with at least one row, a product with no inventory rows
receiving exactly the synthetic placeholder (no id, quantity 0, empty
location). -/
theorem C7_listing_location_semantics :
    ∀ (σ : Store) (nf lf : String),
      (pyStripS lf ≠ "" →
        (∀ v ∈ envanter_listesi σ nf lf,
          v.inventoryEntries ≠ [] ∧
          ∀ e ∈ v.inventoryEntries, e.location = pyStripS lf ∧ e.inventoryId ≠ none) ∧
        (∀ p ∈ σ.products,
          (∀ r ∈ σ.inventory, ¬(r.productId = p.id ∧ r.location = pyStripS lf)) →
          ∀ v ∈ envanter_listesi σ nf lf, v.id ≠ p.id)) ∧
      (pyStripS lf = "" →
        ∀ p ∈ σ.products,
          (pyStripS nf = "" || likeContains p.name (pyStripS nf)) = true →
          ∃ v ∈ envanter_listesi σ nf lf, v.id = p.id ∧
            v.inventoryEntries ≠ [] ∧
            ((∀ r ∈ σ.inventory, r.productId ≠ p.id) →
              v.inventoryEntries = [⟨none, 0, "", "N/A"⟩])) := by
  intro σ nf lf
  constructor
  · intro hlf
    constructor
    · intro v hv
      unfold envanter_listesi at hv
      dsimp only at hv
      rw [List.mem_filterMap] at hv
      obtain ⟨p, hp, hf⟩ := hv
      split at hf
      · exact Option.noConfusion hf
      · rename_i hcond
        rw [not_and_or] at hcond
        have hne : ¬(sortByKey (fun a b => strLe a.location b.location)
            (σ.inventory.filter (fun r =>
              r.productId = p.id && (pyStripS lf = "" || r.location = pyStripS lf)))).isEmpty := by
          rcases hcond with h | h
          · exact h
          · exact absurd hlf (by simpa using h)
        cases hf
        rw [if_neg hne]
        constructor
        · intro hnil
          rw [List.map_eq_nil_iff] at hnil
          rw [hnil] at hne
          exact hne rfl
        · intro e he
          rw [List.mem_map] at he
          obtain ⟨r, hr, rfl⟩ := he
          rw [mem_sortByKey, List.mem_filter] at hr
          have h2 := hr.2
          simp only [Bool.and_eq_true, Bool.or_eq_true, decide_eq_true_eq] at h2
          rcases h2.2 with h3 | h3
          · exact absurd h3 hlf
          · exact ⟨h3, by simp⟩
    · intro p hp hnone v hv hvid
      unfold envanter_listesi at hv
      dsimp only at hv
      rw [List.mem_filterMap] at hv
      obtain ⟨q, hq, hf⟩ := hv
      split at hf
      · exact Option.noConfusion hf
      · rename_i hcond
        cases hf
        simp only at hvid
        apply hcond
        refine ⟨?_, hlf⟩
        have : σ.inventory.filter (fun r =>
            r.productId = q.id && (pyStripS lf = "" || r.location = pyStripS lf)) = [] := by
          rw [List.filter_eq_nil_iff]
          intro r hr hcon
          simp only [Bool.and_eq_true, Bool.or_eq_true, decide_eq_true_eq] at hcon
          rcases hcon.2 with h3 | h3
          · exact hlf h3
          · exact hnone r hr ⟨hvid ▸ hcon.1, h3⟩
        rw [this]
        rfl
  · intro hlf p hp hnf
    have hpmem : p ∈ sortByKey (fun p q => p.userProductId ≤ q.userProductId)
        (σ.products.filter (fun p =>
          pyStripS nf = "" || likeContains p.name (pyStripS nf))) := by
      rw [mem_sortByKey, List.mem_filter]
      exact ⟨hp, hnf⟩
    unfold envanter_listesi
    dsimp only
    set entries := sortByKey (fun a b => strLe a.location b.location)
      (σ.inventory.filter (fun r =>
        r.productId = p.id && (pyStripS lf = "" || r.location = pyStripS lf))) with hent
    refine ⟨⟨p.id, p.userProductId, p.name, p.price,
      if entries.isEmpty then [⟨none, 0, "", "N/A"⟩]
      else entries.map (fun r => ⟨some r.id, r.quantity, r.location, r.lastUpdated⟩)⟩,
      ?_, rfl, ?_, ?_⟩
    · rw [List.mem_filterMap]
      refine ⟨p, hpmem, ?_⟩
      rw [if_neg (by rw [← hent]; exact fun hcon => hcon.2 hlf)]
    · dsimp only
      split
      · simp
      · rename_i hne
        intro hnil
        rw [List.map_eq_nil_iff] at hnil
        rw [hnil] at hne
        exact hne rfl
    · intro hnorow
      dsimp only
      have : entries = [] := by
        rw [hent]
        have : σ.inventory.filter (fun r =>
            r.productId = p.id && (pyStripS lf = "" || r.location = pyStripS lf)) = [] := by
          rw [List.filter_eq_nil_iff]
          intro r hr hcon
          simp only [Bool.and_eq_true, decide_eq_true_eq] at hcon
          exact hnorow r hr hcon.1
        rw [this]
        rfl
      rw [if_pos (by rw [this]; rfl)]

theorem C7_listing_location_semantics_witness :
    ((∀ v ∈ envanter_listesi
        { initStore with
          products := [⟨1, 1, "Widget", .finite 1, []⟩]
          nextProductId := 2
          inventory := [⟨1, 1, 0, "", "t"⟩, ⟨2, 1, 7, "A", "t2"⟩]
          nextInvId := 3 } "" "B",
        v.inventoryEntries ≠ [] ∧
        ∀ e ∈ v.inventoryEntries, e.location = pyStripS "B" ∧ e.inventoryId ≠ none) ∧
      (∀ p ∈ ({ initStore with
          products := [⟨1, 1, "Widget", .finite 1, []⟩]
          nextProductId := 2
          inventory := [⟨1, 1, 0, "", "t"⟩, ⟨2, 1, 7, "A", "t2"⟩]
          nextInvId := 3 : Store }).products,
        (∀ r ∈ ({ initStore with
            products := [⟨1, 1, "Widget", .finite 1, []⟩]
            nextProductId := 2
            inventory := [⟨1, 1, 0, "", "t"⟩, ⟨2, 1, 7, "A", "t2"⟩]
            nextInvId := 3 : Store }).inventory,
          ¬(r.productId = p.id ∧ r.location = pyStripS "B")) →
        ∀ v ∈ envanter_listesi
          { initStore with
            products := [⟨1, 1, "Widget", .finite 1, []⟩]
            nextProductId := 2
            inventory := [⟨1, 1, 0, "", "t"⟩, ⟨2, 1, 7, "A", "t2"⟩]
            nextInvId := 3 } "" "B", v.id ≠ p.id)) ∧
    (∃ v ∈ envanter_listesi
        { initStore with
          products := [⟨1, 1, "Widget", .finite 1, []⟩]
          nextProductId := 2 } "" "",
      v.id = 1 ∧ v.inventoryEntries ≠ [] ∧
        ((∀ r ∈ ({ initStore with
            products := [⟨1, 1, "Widget", .finite 1, []⟩]
            nextProductId := 2 : Store }).inventory, r.productId ≠ 1) →
          v.inventoryEntries = [⟨none, 0, "", "N/A"⟩])) := by
  constructor
  · exact (C7_listing_location_semantics
      { initStore with
        products := [⟨1, 1, "Widget", .finite 1, []⟩]
        nextProductId := 2
        inventory := [⟨1, 1, 0, "", "t"⟩, ⟨2, 1, 7, "A", "t2"⟩]
        nextInvId := 3 } "" "B").1 (by decide)
  · have h := (C7_listing_location_semantics
      { initStore with
        products := [⟨1, 1, "Widget", .finite 1, []⟩]
        nextProductId := 2 } "" "").2 (by decide)
      ⟨1, 1, "Widget", .finite 1, []⟩ (by simp) (by decide)
    simpa using h

/-! ## Correctness of the JSON round trip (for C8)

`json.loads` inverts `json.dumps` on lists of strings: character by
character for the string bodies, then for the comma-separated items, then
for the whole array. -/

theorem hexDigitVal_hexChar : ∀ k, k < 16 → hexDigitVal (hexChar k) = some k := by
  decide

theorem hex4Val_toHex4 {n : Nat} (h : n < 65536) :
    hex4Val (hexChar (n / 4096 % 16)) (hexChar (n / 256 % 16))
      (hexChar (n / 16 % 16)) (hexChar (n % 16)) = some n := by
  unfold hex4Val
  rw [hexDigitVal_hexChar _ (Nat.mod_lt _ (by norm_num)),
    hexDigitVal_hexChar _ (Nat.mod_lt _ (by norm_num)),
    hexDigitVal_hexChar _ (Nat.mod_lt _ (by norm_num)),
    hexDigitVal_hexChar _ (Nat.mod_lt _ (by norm_num))]
  simp only [Option.bind_eq_bind, Option.some_bind, Option.pure_def]
  congr 1
  omega

/-- The validity certificate of a `Char`, at the `Nat` level. -/
theorem char_toNat_valid (c : Char) :
    c.toNat < 0xd800 ∨ (0xdfff < c.toNat ∧ c.toNat < 0x110000) :=
  c.valid

theorem parseJStr_close (fuel : Nat) (t : List Char) :
    parseJStr (fuel + 1) ('"' :: t) = some ([], t) := by
  simp [parseJStr]

theorem parseJStr_unicode_esc {n : Nat} (hlt : n < 0x10000)
    (hval : n < 0xd800 ∨ 0xe000 ≤ n) (fuel : Nat) (t : List Char) :
    parseJStr (fuel + 1) ('\\' :: 'u' :: (toHex4 n ++ t)) =
      (parseJStr fuel t).map (fun p => (Char.ofNat n :: p.1, p.2)) := by
  unfold toHex4
  simp only [List.cons_append, List.nil_append]
  simp only [parseJStr]
  rw [hex4Val_toHex4 hlt]
  simp [hval]

theorem parseJStr_surrogate_pair {n2 m2 : Nat} (h1 : 0xd800 ≤ n2) (h2 : n2 < 0xdc00)
    (h4 : 0xdc00 ≤ m2) (h5 : m2 < 0xe000) (fuel : Nat) (t : List Char) :
    parseJStr (fuel + 1) ('\\' :: 'u' :: (toHex4 n2 ++ ('\\' :: 'u' :: (toHex4 m2 ++ t)))) =
      (parseJStr fuel t).map (fun p =>
        (Char.ofNat (0x10000 + (n2 - 0xd800) * 0x400 + (m2 - 0xdc00)) :: p.1, p.2)) := by
  unfold toHex4
  simp only [List.cons_append, List.nil_append]
  simp only [parseJStr]
  rw [hex4Val_toHex4 (by omega), hex4Val_toHex4 (by omega)]
  simp only [if_neg (by omega : ¬(n2 < 0xd800 ∨ 0xe000 ≤ n2)), if_pos h2,
    if_pos (And.intro h4 h5)]
  simp [h2, h4, h5]

theorem parseJStr_escChar (c : Char) (fuel : Nat) (t : List Char) :
    parseJStr (fuel + 1) (escChar c ++ t) =
      (parseJStr fuel t).map (fun p => (c :: p.1, p.2)) := by
  unfold escChar
  by_cases h1 : c = '\\'
  · subst h1
    simp [parseJStr]
  rw [if_neg h1]
  by_cases h2 : c = '"'
  · subst h2
    simp [parseJStr]
  rw [if_neg h2]
  by_cases h3 : c = Char.ofNat 8
  · subst h3
    simp [parseJStr]
  rw [if_neg h3]
  by_cases h4 : c = '\t'
  · subst h4
    simp [parseJStr]
  rw [if_neg h4]
  by_cases h5 : c = '\n'
  · subst h5
    simp [parseJStr]
  rw [if_neg h5]
  by_cases h6 : c = Char.ofNat 12
  · subst h6
    simp [parseJStr]
  rw [if_neg h6]
  by_cases h7 : c = '\r'
  · subst h7
    simp [parseJStr]
  rw [if_neg h7]
  by_cases h8 : c.toNat < 0x20
  · rw [if_pos h8]
    rw [List.cons_append, List.cons_append]
    rw [parseJStr_unicode_esc (by omega) (Or.inl (by omega)) fuel t]
    rw [Char.ofNat_toNat]
  rw [if_neg h8]
  by_cases h9 : c.toNat < 0x7f
  · rw [if_pos h9]
    rw [List.cons_append, List.nil_append]
    simp only [parseJStr]
    rw [if_neg h2, if_neg h1, if_neg h8]
  rw [if_neg h9]
  by_cases h10 : c.toNat < 0x10000
  · rw [if_pos h10]
    have hval : c.toNat < 0xd800 ∨ 0xe000 ≤ c.toNat := by
      rcases char_toNat_valid c with h | ⟨h, -⟩
      · exact Or.inl h
      · exact Or.inr (by omega)
    rw [List.cons_append, List.cons_append]
    rw [parseJStr_unicode_esc h10 hval fuel t]
    rw [Char.ofNat_toNat]
  rw [if_neg h10]
  have hub : c.toNat < 0x110000 := by
    rcases char_toNat_valid c with h | ⟨-, h⟩
    · omega
    · exact h
  have hm : c.toNat - 0x10000 < 0x100000 := by omega
  simp only [List.append_assoc, List.cons_append]
  rw [parseJStr_surrogate_pair (by omega) (by omega) (by omega) (by omega) fuel t]
  have harith : ∀ m : Nat, m < 0x100000 →
      0x10000 + (0xd800 + m / 0x400 - 0xd800) * 0x400 + (0xdc00 + m % 0x400 - 0xdc00) =
        0x10000 + m := by
    intro m hmlt
    omega
  rw [harith _ hm]
  have h16 : 0x10000 + (c.toNat - 0x10000) = c.toNat := by omega
  rw [h16, Char.ofNat_toNat]

theorem parseJStr_escList :
    ∀ (l : List Char) (t : List Char) (fuel : Nat), l.length < fuel →
      parseJStr fuel (l.flatMap escChar ++ ('"' :: t)) = some (l, t) := by
  intro l
  induction l with
  | nil =>
    intro t fuel h
    cases fuel with
    | zero => omega
    | succ f =>
      rw [List.flatMap_nil, List.nil_append, parseJStr_close]
  | cons c l ih =>
    intro t fuel h
    cases fuel with
    | zero => omega
    | succ f =>
      rw [List.flatMap_cons, List.append_assoc, parseJStr_escChar,
        ih t f (by simpa using Nat.lt_of_succ_lt_succ h)]
      rfl

theorem escChar_length_pos (c : Char) : 1 ≤ (escChar c).length := by
  unfold escChar
  repeat' split
  all_goals simp [toHex4]

theorem length_le_escList_length (l : List Char) : l.length ≤ (l.flatMap escChar).length := by
  induction l with
  | nil => simp
  | cons c l ih =>
    rw [List.flatMap_cons, List.length_append]
    simp only [List.length_cons]
    have := escChar_length_pos c
    omega

theorem encStr_length (s : String) :
    (encStr s).length = (s.data.flatMap escChar).length + 2 := by
  simp [encStr]

theorem parseJVal_encStr (s : String) (t : List Char) (fuel : Nat) :
    parseJVal (fuel + 1) (encStr s ++ t) = some (.str s, t) := by
  have hshape : encStr s ++ t = '"' :: (s.data.flatMap escChar ++ ('"' :: t)) := by
    simp [encStr]
  rw [hshape]
  have hsk : skipWs ('"' :: (s.data.flatMap escChar ++ ('"' :: t))) =
      '"' :: (s.data.flatMap escChar ++ ('"' :: t)) := by
    simp [skipWs, List.dropWhile_cons, isJsonWs]
  simp only [parseJVal, hsk, ite_true]
  rw [parseJStr_escList s.data t _ (by
    have h1 := length_le_escList_length s.data
    simp only [List.length_append, List.length_cons]
    omega)]
  rfl

theorem parseJVal_ws_cons (g : Nat) (cs : List Char) :
    parseJVal g (' ' :: cs) = parseJVal g cs := by
  cases g with
  | zero => rfl
  | succ g =>
    simp only [parseJVal]
    have : skipWs (' ' :: cs) = skipWs cs := by
      simp [skipWs, List.dropWhile_cons, isJsonWs]
    rw [this]

theorem parseArrItems_ws_cons (f : Nat) (cs : List Char) :
    parseArrItems f (' ' :: cs) = parseArrItems f cs := by
  cases f with
  | zero => rfl
  | succ f =>
    simp only [parseArrItems]
    rw [parseJVal_ws_cons]

theorem parseArrItems_step (fl : Nat) (cs : List Char) :
    parseArrItems (fl + 1) cs =
      match parseJVal fl cs with
      | none => none
      | some (v, rest) =>
        match skipWs rest with
        | ',' :: r2 => (parseArrItems fl r2).map (fun p => (v :: p.1, p.2))
        | ']' :: r2 => some ([v], r2)
        | _ => none := rfl

theorem parseArrItems_enc :
    ∀ (xs : List String) (x : String) (t : List Char) (fuel : Nat),
      xs.length + 2 ≤ fuel →
      parseArrItems fuel (encItems ((x :: xs).map encStr) ++ (']' :: t)) =
        some ((x :: xs).map PyVal.str, t) := by
  intro xs
  induction xs with
  | nil =>
    intro x t fuel h
    match fuel, h with
    | f + 2, _ =>
      simp only [List.map_cons, List.map_nil, encItems]
      rw [parseArrItems_step]
      rw [parseJVal_encStr]
      have hsk : skipWs (']' :: t) = ']' :: t := by
        simp [skipWs, List.dropWhile_cons, isJsonWs]
      simp only [hsk]
  | cons y xs ih =>
    intro x t fuel h
    match fuel, h with
    | f + 2, h =>
      simp only [List.map_cons, encItems]
      rw [List.append_assoc, List.cons_append, List.cons_append]
      rw [parseArrItems_step]
      rw [parseJVal_encStr x (',' :: ' ' :: (encItems (encStr y :: xs.map encStr) ++
        (']' :: t))) f]
      have hsk : skipWs (',' :: ' ' :: (encItems (encStr y :: xs.map encStr) ++ (']' :: t))) =
          ',' :: ' ' :: (encItems (encStr y :: xs.map encStr) ++ (']' :: t)) := by
        simp [skipWs, List.dropWhile_cons, isJsonWs]
      simp only [hsk]
      rw [parseArrItems_ws_cons]
      have hf : xs.length + 2 ≤ f + 1 := by
        simp only [List.length_cons] at h
        omega
      have hih := ih y t (f + 1) hf
      simp only [List.map_cons] at hih
      rw [hih]
      rfl

theorem encItems_length (l : List String) :
    l.length ≤ (encItems (l.map encStr)).length := by
  induction l with
  | nil => simp [encItems]
  | cons x xs ih =>
    cases xs with
    | nil =>
      simp only [List.map_cons, List.map_nil, encItems, List.length_cons, List.length_nil]
      rw [encStr_length]
      omega
    | cons y ys =>
      simp only [List.map_cons, encItems, List.length_append, List.length_cons] at *
      rw [encStr_length]
      omega

theorem string_mk_length (l : List Char) : (String.mk l).length = l.length := rfl

theorem jsonLoads_dumps (ts : List String) :
    jsonLoads (jsonDumpsList ts) = some (.arr (ts.map PyVal.str)) := by
  unfold jsonLoads jsonDumpsList
  rw [string_mk_length]
  simp only [List.length_cons, List.length_append, List.length_nil]
  cases ts with
  | nil =>
    rfl
  | cons x xs =>
    have hhead : ∃ r, encItems ((x :: xs).map encStr) = '"' :: r := by
      cases xs with
      | nil => exact ⟨_, rfl⟩
      | cons y ys =>
        simp only [List.map_cons, encItems, encStr, List.cons_append]
        exact ⟨_, rfl⟩
    obtain ⟨r, hr⟩ := hhead
    simp only [parseJVal]
    have hsk1 : skipWs ('[' :: (encItems ((x :: xs).map encStr) ++ [']'])) =
        '[' :: (encItems ((x :: xs).map encStr) ++ [']']) := by
      simp [skipWs, List.dropWhile_cons, isJsonWs]
    rw [hsk1]
    simp only [show ¬(('[' : Char) = '"') by decide, if_false, if_pos rfl]
    have hsk2 : skipWs (encItems ((x :: xs).map encStr) ++ [']']) =
        encItems ((x :: xs).map encStr) ++ [']'] := by
      rw [hr, List.cons_append]
      simp [skipWs, List.dropWhile_cons, isJsonWs]
    rw [hsk2]
    rw [hr, List.cons_append]
    simp only [ite_true]
    have hred : (match '"' :: (r ++ [']']) with
        | ']' :: cs2 => some (PyVal.arr [], cs2)
        | cs2 => Option.map (fun p => (PyVal.arr p.1, p.2))
            (parseArrItems (('"' :: r).length + 3) cs2)) =
        Option.map (fun p => (PyVal.arr p.1, p.2))
          (parseArrItems (('"' :: r).length + 3) ('"' :: (r ++ [']']))) := rfl
    rw [hred]
    rw [← List.cons_append, ← hr]
    have harr : encItems ((x :: xs).map encStr) ++ [']'] =
        encItems ((x :: xs).map encStr) ++ (']' :: ([] : List Char)) := rfl
    rw [harr]
    rw [parseArrItems_enc xs x [] _ (by
      have hl := encItems_length (x :: xs)
      simp only [List.length_cons] at hl ⊢
      omega)]
    rfl

theorem pyStripS_dumps (ts : List String) :
    pyStripS (jsonDumpsList ts) = jsonDumpsList ts := by
  unfold pyStripS jsonDumpsList pyStripL
  have h1 : List.dropWhile isPyWs ('[' :: (encItems (ts.map encStr) ++ [']'])) =
      '[' :: (encItems (ts.map encStr) ++ [']']) := by
    simp [List.dropWhile_cons, isPyWs]
  rw [h1]
  have h2 : ∀ (xs : List Char) (c : Char), isPyWs c = false →
      rdropWhile isPyWs (xs ++ [c]) = xs ++ [c] := by
    intro xs c hc
    induction xs with
    | nil =>
      simp [rdropWhile, hc]
    | cons a xs ih =>
      rw [List.cons_append]
      unfold rdropWhile
      rw [ih]
      have : xs ++ [c] ≠ [] := by simp
      cases hxs : xs ++ [c] with
      | nil => exact absurd hxs this
      | cons b l => rfl
  have h3 : '[' :: (encItems (ts.map encStr) ++ [']']) =
      ('[' :: encItems (ts.map encStr)) ++ [']'] := by simp
  rw [h3, h2 _ _ (by decide)]

theorem resolve_options_dumps (ts : List String) :
    resolve_options (some (jsonDumpsList ts)) = ts.map PyVal.str := by
  unfold resolve_options
  have hne : jsonDumpsList ts ≠ "" := by
    unfold jsonDumpsList
    intro hcon
    have h2 : ('[' :: (encItems (ts.map encStr) ++ [']'])) = "".data :=
      congrArg String.data hcon
    simp at h2
  dsimp only
  rw [if_neg hne, pyStripS_dumps, jsonLoads_dumps]

theorem add_column_select_tokens_ne_nil {σ σ' : Store} {u : Nat} {raw opts : String}
    (h : add_column σ u raw "select" opts = .ok σ') :
    ((splitComma (pyStripS opts).data).map
      (fun t => String.mk (pyStripL t))).filter (· ≠ "") ≠ [] := by
  unfold add_column at h
  dsimp only at h
  split at h
  · exact Except.noConfusion h
  · split at h
    · exact Except.noConfusion h
    · split at h
      · exact Except.noConfusion h
      · rename_i hcond
        intro hnil
        exact hcond ⟨rfl, hnil⟩

/-- C8: defining a `select` attribute serializes the comma-split, trimmed,
nonempty tokens of `options_raw` with `json.dumps`, and `resolve_options`
applied to the stored value returns exactly those tokens, in order (in
particular `"Red, Blue, Green"` round-trips to `Red`, `Blue`, `Green`). -/
theorem C8_select_options_round_trip :
    ∀ (σ σ' : Store) (u : Nat) (raw opts : String),
      (∀ d ∈ σ.stockColumns, d.name ≠ sanitizeName (pyStripS raw)) →
      add_column σ u raw "select" opts = .ok σ' →
      ((splitComma (pyStripS opts).data).map
          (fun t => String.mk (pyStripL t))).filter (· ≠ "") ≠ [] ∧
      σ'.stockColumns = σ.stockColumns ++
        [⟨sanitizeName (pyStripS raw), "select",
          some (jsonDumpsList (((splitComma (pyStripS opts).data).map
            (fun t => String.mk (pyStripL t))).filter (· ≠ "")))⟩] ∧
      resolve_options (some (jsonDumpsList (((splitComma (pyStripS opts).data).map
          (fun t => String.mk (pyStripL t))).filter (· ≠ "")))) =
        ((((splitComma (pyStripS opts).data).map
          (fun t => String.mk (pyStripL t))).filter (· ≠ "")).map PyVal.str) := by
  intro σ σ' u raw opts hdefs h
  refine ⟨add_column_select_tokens_ne_nil h, ?_, resolve_options_dumps _⟩
  obtain ⟨-, -, -, -, rfl⟩ := add_column_ok h
  show (if σ.stockColumns.any (fun d => d.name = sanitizeName (pyStripS raw)) then _ else _) = _
  rw [if_neg (by
    intro hc
    simp only [List.any_eq_true, decide_eq_true_eq] at hc
    obtain ⟨d, hd, hdn⟩ := hc
    exact hdefs d hd hdn)]
  rw [if_pos rfl]

theorem C8_select_options_round_trip_witness :
    resolve_options (some (jsonDumpsList ["Red", "Blue", "Green"])) =
      [.str "Red", .str "Blue", .str "Green"] ∧
    ({ initStore with
        schema := ["id", "user_product_id", "name", "price", "color"]
        stockColumns := [⟨"color", "select", some (jsonDumpsList ["Red", "Blue", "Green"])⟩]
        visibility := [⟨1, "color", 1⟩] : Store }).stockColumns =
      initStore.stockColumns ++
        [⟨"color", "select", some (jsonDumpsList ["Red", "Blue", "Green"])⟩] := by
  have h := C8_select_options_round_trip initStore
    { initStore with
        schema := ["id", "user_product_id", "name", "price", "color"]
        stockColumns := [⟨"color", "select", some (jsonDumpsList ["Red", "Blue", "Green"])⟩]
        visibility := [⟨1, "color", 1⟩] }
    1 "color" "Red, Blue, Green" (by simp [initStore]) rfl
  have htok : ((splitComma (pyStripS "Red, Blue, Green").data).map
      (fun t => String.mk (pyStripL t))).filter (· ≠ "") = ["Red", "Blue", "Green"] := by
    decide
  constructor
  · have h3 := h.2.2
    rw [htok] at h3
    exact h3
  · have h2 := h.2.1
    rw [htok] at h2
    exact h2

/-! ## The tolerant fallback as the spec describes it (for C9)

The code's fallback strips the stored value before and after removing the
bracket characters; the claim describes the same pipeline applied to the
raw stored value.  The lemmas below show the extra outer strips are
absorbed by the per-token strip, so the two agree on every input. -/

/-- Modelled from the claim's words (C9): remove bracket characters, split
on commas, trim whitespace and surrounding quote characters from each
token, replace escaped double quotes with plain ones, and discard tokens
that become empty. -/
def fallbackScanSpec (s : String) : List String :=
  (((splitComma (removeChar ']' (removeChar '[' s.data))).map
    (fun t => replEscQuote (stripQuotes (pyStripL t)))).filter (· ≠ [])).map String.mk

/-- The per-token processing shared by code and claim. -/
def tokproc (t : List Char) : List Char :=
  replEscQuote (stripQuotes (pyStripL t))

/-- All tokens of a character list, processed (before dropping empties). -/
def mtoks (l : List Char) : List (List Char) :=
  (splitComma l).map tokproc

def modifyLast (f : List Char → List Char) : List (List Char) → List (List Char)
  | [] => []
  | [a] => [f a]
  | a :: l => a :: modifyLast f l

theorem splitComma_cons (c : Char) (l : List Char) :
    splitComma (c :: l) =
      if c = ',' then [] :: splitComma l
      else
        match splitComma l with
        | t :: ts => (c :: t) :: ts
        | [] => [[c]] := rfl

theorem splitComma_ne_nil (l : List Char) : splitComma l ≠ [] := by
  induction l with
  | nil => simp [splitComma]
  | cons c l ih =>
    unfold splitComma
    split
    · simp
    · cases h : splitComma l with
      | nil => exact absurd h ih
      | cons t ts => simp

theorem modifyLast_cons (f : List Char → List Char) (a : List Char) {l : List (List Char)}
    (h : l ≠ []) : modifyLast f (a :: l) = a :: modifyLast f l := by
  cases l with
  | nil => exact absurd rfl h
  | cons b m => rfl

theorem rdropWhile_cons (p : Char → Bool) (c : Char) (l : List Char) :
    rdropWhile p (c :: l) =
      match rdropWhile p l with
      | [] => if p c then [] else [c]
      | r => c :: r := rfl

theorem rdropWhile_eq_nil_iff {p : Char → Bool} {l : List Char} :
    rdropWhile p l = [] ↔ ∀ c ∈ l, p c := by
  induction l with
  | nil => simp [rdropWhile]
  | cons c l ih =>
    rw [rdropWhile_cons]
    cases h : rdropWhile p l with
    | nil =>
      show (if p c then [] else [c]) = [] ↔ _
      by_cases hp : p c
      · rw [if_pos hp]
        constructor
        · intro _ x hx
          rcases List.mem_cons.mp hx with rfl | hx
          · exact hp
          · exact ih.mp h x hx
        · intro _
          rfl
      · rw [if_neg hp]
        constructor
        · intro hcon
          exact List.noConfusion hcon
        · intro hx
          exact absurd (hx c (List.mem_cons_self c l)) (by simp [hp])
    | cons b m =>
      show c :: b :: m = [] ↔ _
      constructor
      · intro hcon
        exact List.noConfusion hcon
      · intro hx
        have h2 := ih.mpr (fun x h2 => hx x (List.mem_cons_of_mem c h2))
        rw [h] at h2
        exact List.noConfusion h2

theorem splitComma_of_all_ws {l : List Char} (h : ∀ c ∈ l, isPyWs c) :
    splitComma l = [l] := by
  induction l with
  | nil => rfl
  | cons c l ih =>
    have hc : isPyWs c := h c (List.mem_cons_self c l)
    have hcomma : ¬c = ',' := by
      intro hcon
      rw [hcon] at hc
      exact absurd hc (by decide)
    unfold splitComma
    rw [if_neg hcomma, ih (fun x hx => h x (List.mem_cons_of_mem c hx))]

theorem splitComma_singleton {l x : List Char} (h : splitComma l = [x]) : x = l := by
  induction l generalizing x with
  | nil =>
    simp only [splitComma] at h
    cases h
    rfl
  | cons c l ih =>
    unfold splitComma at h
    split at h
    · rename_i hc
      cases hsl : splitComma l with
      | nil => exact absurd hsl (splitComma_ne_nil l)
      | cons t ts =>
        rw [hsl] at h
        exact List.noConfusion (List.cons.inj h).2
    · rename_i hc
      cases hsl : splitComma l with
      | nil => exact absurd hsl (splitComma_ne_nil l)
      | cons t ts =>
        rw [hsl] at h
        obtain ⟨h1, h2⟩ := List.cons.inj h
        subst h2
        rw [← h1, ih hsl]

theorem splitComma_rdropWhile (l : List Char) :
    splitComma (rdropWhile isPyWs l) = modifyLast (rdropWhile isPyWs) (splitComma l) := by
  induction l with
  | nil => rfl
  | cons c l ih =>
    show splitComma (rdropWhile isPyWs (c :: l)) = _
    unfold rdropWhile
    cases hr : rdropWhile isPyWs l with
    | nil =>
      have hall : ∀ x ∈ l, isPyWs x := rdropWhile_eq_nil_iff.mp hr
      have hsl : splitComma l = [l] := splitComma_of_all_ws hall
      by_cases hc : isPyWs c
      · rw [if_pos hc]
        have hcomma : ¬c = ',' := by
          intro hcon
          rw [hcon] at hc
          exact absurd hc (by decide)
        show [[]] = modifyLast (rdropWhile isPyWs) (splitComma (c :: l))
        unfold splitComma
        rw [if_neg hcomma, hsl]
        show [[]] = [rdropWhile isPyWs (c :: l)]
        have : rdropWhile isPyWs (c :: l) = [] :=
          rdropWhile_eq_nil_iff.mpr (fun x hx => by
            rcases List.mem_cons.mp hx with rfl | hx
            · exact hc
            · exact hall x hx)
        rw [this]
      · rw [if_neg hc]
        by_cases hcomma : c = ','
        · subst hcomma
          show splitComma [','] = _
          unfold splitComma
          rw [if_pos rfl, hsl]
          show [] :: splitComma [] = modifyLast (rdropWhile isPyWs) ([] :: [l])
          rw [modifyLast_cons _ _ (by simp)]
          show [[], []] = [[], rdropWhile isPyWs l]
          rw [hr]
        · show splitComma [c] = _
          unfold splitComma
          rw [if_neg hcomma, if_neg hcomma, hsl]
          show (match splitComma ([] : List Char) with
            | t :: ts => (c :: t) :: ts
            | [] => [[c]]) = [rdropWhile isPyWs (c :: l)]
          have hrc : rdropWhile isPyWs (c :: l) = [c] := by
            unfold rdropWhile
            rw [hr, if_neg hc]
          rw [hrc]
          rfl
    | cons b r0 =>
      by_cases hcomma : c = ','
      · subst hcomma
        show splitComma (',' :: b :: r0) = _
        rw [← hr, splitComma_cons, if_pos rfl, ih, splitComma_cons, if_pos rfl,
          modifyLast_cons _ _ (splitComma_ne_nil l)]
      · show splitComma (c :: b :: r0) = _
        rw [← hr, splitComma_cons, if_neg hcomma, ih, splitComma_cons, if_neg hcomma]
        cases hsl : splitComma l with
        | nil => exact absurd hsl (splitComma_ne_nil l)
        | cons t ts =>
          cases ts with
          | nil =>
            have hteq : t = l := splitComma_singleton hsl
            show (match modifyLast (rdropWhile isPyWs) [t] with
              | t2 :: ts2 => (c :: t2) :: ts2
              | [] => [[c]]) = modifyLast (rdropWhile isPyWs) [c :: t]
            show [c :: rdropWhile isPyWs t] = [rdropWhile isPyWs (c :: t)]
            have hstep : rdropWhile isPyWs (c :: t) = c :: rdropWhile isPyWs t := by
              rw [rdropWhile_cons, hteq, hr]
            rw [hstep, hteq, hr]
          | cons t2 ts2 => rfl

theorem tokproc_cons_ws {c : Char} (hc : isPyWs c) (t : List Char) :
    tokproc (c :: t) = tokproc t := by
  unfold tokproc pyStripL
  rw [List.dropWhile_cons, if_pos hc]

theorem mtoks_dropWhile (l : List Char) :
    mtoks (l.dropWhile isPyWs) = mtoks l := by
  induction l with
  | nil => rfl
  | cons c l ih =>
    rw [List.dropWhile_cons]
    by_cases hc : isPyWs c
    · rw [if_pos hc, ih]
      have hcomma : ¬c = ',' := by
        intro hcon
        rw [hcon] at hc
        exact absurd hc (by decide)
      show mtoks l = mtoks (c :: l)
      unfold mtoks
      rw [splitComma_cons, if_neg hcomma]
      cases hsl : splitComma l with
      | nil => exact absurd hsl (splitComma_ne_nil l)
      | cons t ts =>
        show (tokproc t :: ts.map tokproc) = (tokproc (c :: t) :: ts.map tokproc)
        rw [tokproc_cons_ws hc]
    · rw [if_neg hc]

theorem rdropWhile_idem (p : Char → Bool) (l : List Char) :
    rdropWhile p (rdropWhile p l) = rdropWhile p l := by
  induction l with
  | nil => rfl
  | cons c l ih =>
    rw [rdropWhile_cons]
    cases hr : rdropWhile p l with
    | nil =>
      by_cases hp : p c
      · rw [if_pos hp]
        rfl
      · rw [if_neg hp]
        show rdropWhile p [c] = [c]
        rw [rdropWhile_cons]
        show (match rdropWhile p ([] : List Char) with
          | [] => if p c then [] else [c]
          | r => c :: r) = [c]
        rw [show rdropWhile p ([] : List Char) = [] from rfl, if_neg hp]
    | cons b r0 =>
      show rdropWhile p (c :: b :: r0) = c :: b :: r0
      rw [rdropWhile_cons]
      rw [hr] at ih
      rw [ih]

theorem dropWhile_rdropWhile_comm (p : Char → Bool) (l : List Char) :
    List.dropWhile p (rdropWhile p l) = rdropWhile p (List.dropWhile p l) := by
  induction l with
  | nil => rfl
  | cons c l ih =>
    rw [rdropWhile_cons, List.dropWhile_cons]
    cases hr : rdropWhile p l with
    | nil =>
      have hall : ∀ x ∈ l, p x := rdropWhile_eq_nil_iff.mp hr
      by_cases hp : p c
      · rw [if_pos hp, if_pos hp]
        have hdl : List.dropWhile p l = [] := List.dropWhile_eq_nil_iff.mpr hall
        rw [hdl]
        rfl
      · rw [if_neg hp, if_neg hp]
        rw [List.dropWhile_cons, if_neg hp]
        rw [rdropWhile_cons, hr, if_neg hp]
    | cons b r0 =>
      by_cases hp : p c
      · rw [if_pos hp, if_pos hp]
        rw [show List.dropWhile p (c :: b :: r0) = List.dropWhile p (b :: r0) by
          rw [List.dropWhile_cons, if_pos hp]]
        rw [← hr, ih]
      · rw [if_neg hp, if_neg hp]
        rw [show List.dropWhile p (c :: b :: r0) = c :: b :: r0 by
          rw [List.dropWhile_cons, if_neg hp]]
        rw [rdropWhile_cons, hr]

theorem pyStripL_rdropWhile (t : List Char) :
    pyStripL (rdropWhile isPyWs t) = pyStripL t := by
  unfold pyStripL
  rw [dropWhile_rdropWhile_comm, rdropWhile_idem]

theorem tokproc_rdropWhile (t : List Char) :
    tokproc (rdropWhile isPyWs t) = tokproc t := by
  unfold tokproc
  rw [pyStripL_rdropWhile]

theorem map_tokproc_modifyLast (L : List (List Char)) :
    (modifyLast (rdropWhile isPyWs) L).map tokproc = L.map tokproc := by
  induction L with
  | nil => rfl
  | cons a m ih =>
    cases m with
    | nil =>
      show [tokproc (rdropWhile isPyWs a)] = [tokproc a]
      rw [tokproc_rdropWhile]
    | cons b m2 =>
      show tokproc a :: (modifyLast (rdropWhile isPyWs) (b :: m2)).map tokproc =
        tokproc a :: (b :: m2).map tokproc
      rw [ih]

theorem mtoks_rdropWhile (l : List Char) :
    mtoks (rdropWhile isPyWs l) = mtoks l := by
  unfold mtoks
  rw [splitComma_rdropWhile, map_tokproc_modifyLast]

theorem mtoks_pyStripL (l : List Char) : mtoks (pyStripL l) = mtoks l := by
  unfold pyStripL
  rw [mtoks_rdropWhile, mtoks_dropWhile]

theorem dropWhile_append_ws {w : List Char} (hw : ∀ x ∈ w, isPyWs x) (l : List Char) :
    List.dropWhile isPyWs (w ++ l) = List.dropWhile isPyWs l := by
  induction w with
  | nil => rfl
  | cons c wtl ih =>
    rw [List.cons_append, List.dropWhile_cons, if_pos (hw c (List.mem_cons_self c wtl))]
    exact ih (fun x hx => hw x (List.mem_cons_of_mem c hx))

theorem rdropWhile_append_ws {w : List Char} (hw : ∀ x ∈ w, isPyWs x) (l : List Char) :
    rdropWhile isPyWs (l ++ w) = rdropWhile isPyWs l := by
  induction l with
  | nil =>
    rw [List.nil_append]
    exact rdropWhile_eq_nil_iff.mpr hw
  | cons c l ih =>
    rw [List.cons_append, rdropWhile_cons, rdropWhile_cons, ih]

theorem mtoks_ws_append_left {w : List Char} (hw : ∀ x ∈ w, isPyWs x) (l : List Char) :
    mtoks (w ++ l) = mtoks l := by
  rw [← mtoks_dropWhile (w ++ l), dropWhile_append_ws hw, mtoks_dropWhile]

theorem mtoks_ws_append_right {w : List Char} (hw : ∀ x ∈ w, isPyWs x) (l : List Char) :
    mtoks (l ++ w) = mtoks l := by
  rw [← mtoks_rdropWhile (l ++ w), rdropWhile_append_ws hw, mtoks_rdropWhile]

theorem exists_rdropWhile_decomp (p : Char → Bool) (l : List Char) :
    ∃ w, l = rdropWhile p l ++ w ∧ ∀ c ∈ w, p c := by
  induction l with
  | nil => exact ⟨[], rfl, by simp⟩
  | cons c l ih =>
    obtain ⟨w, hw, hall⟩ := ih
    rw [rdropWhile_cons]
    cases hr : rdropWhile p l with
    | nil =>
      rw [hr, List.nil_append] at hw
      by_cases hp : p c
      · refine ⟨c :: l, ?_, ?_⟩
        · rw [if_pos hp, List.nil_append]
        · intro x hx
          rcases List.mem_cons.mp hx with rfl | hx
          · exact hp
          · rw [hw] at hx
            exact hall x hx
      · refine ⟨w, ?_, hall⟩
        rw [if_neg hp, List.cons_append, List.nil_append, ← hw]
    | cons b r0 =>
      refine ⟨w, ?_, hall⟩
      rw [List.cons_append, ← hr, ← hw]

theorem mtoks_filter_pyStrip (q : Char → Bool) (hq : ∀ x, isPyWs x = true → q x = true)
    (l : List Char) :
    mtoks ((pyStripL l).filter q) = mtoks (l.filter q) := by
  have hfw : ∀ w : List Char, (∀ x ∈ w, isPyWs x) → w.filter q = w := fun w hall =>
    List.filter_eq_self.mpr (fun a ha => hq a (hall a ha))
  obtain ⟨w2, hw2, hall2⟩ := exists_rdropWhile_decomp isPyWs (l.dropWhile isPyWs)
  have htw : ∀ x ∈ l.takeWhile isPyWs, isPyWs x := fun x hx => List.mem_takeWhile_imp hx
  have hldecomp : l = l.takeWhile isPyWs ++ l.dropWhile isPyWs :=
    (List.takeWhile_append_dropWhile isPyWs l).symm
  have hfilter : l.filter q =
      (l.takeWhile isPyWs) ++
        ((rdropWhile isPyWs (l.dropWhile isPyWs)).filter q ++ w2) := by
    conv_lhs => rw [hldecomp]
    rw [List.filter_append, hfw _ htw]
    conv_lhs => rw [hw2]
    rw [List.filter_append, hfw _ hall2]
  rw [hfilter, mtoks_ws_append_left htw, mtoks_ws_append_right hall2]
  rfl

theorem tokproc_nil : tokproc [] = [] := rfl

theorem fallbackScan_eq (l : List Char) :
    fallbackScan l =
      ((mtoks (pyStripL (removeChar ']' (removeChar '[' l)))).filter (· ≠ [])).map
        (fun t => PyVal.str (String.mk t)) := by
  unfold fallbackScan
  dsimp only
  split
  · rename_i hnil
    rw [hnil]
    rfl
  · rfl

/-- Key absorption fact: the code applies the fallback to the stripped
stored value (and re-strips after removing brackets); the claim's pipeline
works on the raw value.  Both produce the same tokens. -/
theorem fallbackScan_strip_eq_spec (s : String) :
    fallbackScan (pyStripL s.data) = (fallbackScanSpec s).map PyVal.str := by
  rw [fallbackScan_eq, mtoks_pyStripL]
  have hrc : ∀ y : List Char, removeChar ']' (removeChar '[' y) =
      y.filter (fun a => decide (a ≠ ']') && decide (a ≠ '[')) := by
    intro y
    unfold removeChar
    rw [List.filter_filter]
  have hq : ∀ x : Char, isPyWs x = true →
      (decide (x ≠ ']') && decide (x ≠ '[')) = true := by
    intro x hx
    have h1 : x ≠ ']' := by
      intro hcon
      rw [hcon] at hx
      exact absurd hx (by decide)
    have h2 : x ≠ '[' := by
      intro hcon
      rw [hcon] at hx
      exact absurd hx (by decide)
    simp [h1, h2]
  rw [hrc, mtoks_filter_pyStrip _ hq, ← hrc]
  unfold fallbackScanSpec
  rw [List.map_map]
  rfl

/-! ## C9: the two-stage option decoding -/

/-- C9: `resolve_options` is a two-stage decode: when the strict stage
(`json.loads` of the stripped stored value) yields a list, that list is
returned verbatim; when the strict stage fails to parse, the result is the
tolerant scan the claim describes — brackets removed, comma-split, each
token trimmed of whitespace and surrounding quote characters with `\"`
unescaped, empty tokens dropped. -/
theorem C9_resolve_options_two_stage :
    ∀ s : String, s ≠ "" →
      (∀ l, jsonLoads (pyStripS s) = some (.arr l) → resolve_options (some s) = l) ∧
      (jsonLoads (pyStripS s) = none →
        resolve_options (some s) = (fallbackScanSpec s).map PyVal.str) := by
  intro s hne
  constructor
  · intro l hl
    unfold resolve_options
    dsimp only
    rw [if_neg hne, hl]
  · intro hn
    unfold resolve_options
    dsimp only
    rw [if_neg hne, hn]
    exact fallbackScan_strip_eq_spec s

theorem C9_resolve_options_two_stage_witness :
    resolve_options (some "[\"Red\", \"Blue\"]") = [.str "Red", .str "Blue"] ∧
    resolve_options (some " Red, 'Blue' ") = [.str "Red", .str "Blue"] := by
  constructor
  · exact (C9_resolve_options_two_stage "[\"Red\", \"Blue\"]" (by decide)).1
      [.str "Red", .str "Blue"] (by rfl)
  · have h := (C9_resolve_options_two_stage " Red, 'Blue' " (by decide)).2 (by rfl)
    rw [h]
    rfl

end Stok
